import Mathlib

/-!
# Verification of the music-bingo core (`src/app.py`)

Shallow embedding of the card constructor / game simulator of the
music-trivia repository, together with proofs about the behaviour claimed
in its specification.

Conventions of the embedding:

* Python lists of strings become `List String`; a bingo card is a
  `List (List String)` exactly as in the source.
* Python's `set` of called songs is represented by the list of songs
  called so far (`songs.take k` after round `k`); only membership is ever
  used, so the two are interchangeable.
* Python truthiness of an `Optional[int]` (both `None` and `0` are falsy)
  is modelled by `truthy`.
* Calls of the global random generator (`random.sample`, `random.choice`,
  `random.shuffle`) are modelled by oracle parameters: each `choice` call
  takes an arbitrary natural number and picks the element at that index
  modulo the list length (so for a non-empty list every outcome is a
  member, and every member is a possible outcome); each `shuffle` is an
  arbitrary function that the theorems assume returns a permutation;
  each `sample` is an arbitrary list that the theorems assume is drawn
  from the sampled population.  Theorems are quantified over the oracles,
  so they hold for every outcome of the randomness.
* In-place mutation (`create_bingo_card` padding its `songs` argument) is
  modelled by returning the updated list alongside the result.
-/

namespace MusicBingo

/-- A bingo card: an N×N grid of song names (`"FREE SPACE"` marks the free
cell), as in the Python source where a card is a `List[List[str]]`. -/
abbrev Card := List (List String)

/-- Python truthiness of an `Optional[int]`: `None` and `0` are falsy,
every other value is truthy.  Round targets in `validate_round_targets`
and `simulate_bingo_game` are tested with this predicate (`if first_round
and ...`). -/
def truthy : Option Nat → Bool
  | none => false
  | some v => v != 0

/-- `max(filter(None, [a, b, c]))` from `validate_round_targets`
(app.py line 182): drop the falsy entries and take the maximum.  Python's
`max` requires a non-empty list; the call site guards with
`any([...])`, so the `foldl max 0` default is never the result when the
guard holds (all surviving values are positive). -/
def filtered_max (a b c : Option Nat) : Nat :=
  ((([a, b, c].filterMap id).filter (fun v => v ≠ 0)).foldl max 0)

/-- Embedding of `validate_round_targets(card_size, num_songs,
first_round, second_round, third_round)` (app.py lines 147-190).
Returns `(is_valid, error_message)`.  The three ordering checks run
before the minimum-round checks, then the maximum check, then the
blocker-room check, exactly as in the source. -/
def validate_round_targets (card_size num_songs : Nat)
    (first_round second_round third_round : Option Nat) : Bool × Option String :=
  if truthy first_round = true ∧ truthy second_round = true ∧
      second_round.getD 0 ≤ first_round.getD 0 then
    (false, some "2nd place round must be after 1st place round")
  else if truthy second_round = true ∧ truthy third_round = true ∧
      third_round.getD 0 ≤ second_round.getD 0 then
    (false, some "3rd place round must be after 2nd place round")
  else if truthy first_round = true ∧ truthy third_round = true ∧
      truthy second_round = false ∧ third_round.getD 0 ≤ first_round.getD 0 then
    (false, some "3rd place round must be after 1st place round")
  else
    let min_first := card_size
    let min_second := card_size * 2
    let min_third := if card_size % 2 = 1 then card_size * card_size - 1
      else card_size * card_size
    if truthy first_round = true ∧ first_round.getD 0 < min_first then
      (false, some ("1st place (1 line) requires at least " ++
        toString min_first ++ " rounds"))
    else if truthy second_round = true ∧ second_round.getD 0 < min_second then
      (false, some ("2nd place (2 lines) requires at least " ++
        toString min_second ++ " rounds"))
    else if truthy third_round = true ∧ third_round.getD 0 < min_third then
      (false, some ("3rd place (full card) requires at least " ++
        toString min_third ++ " rounds"))
    else if (truthy first_round = true ∨ truthy second_round = true ∨
        truthy third_round = true) ∧
        num_songs < filtered_max first_round second_round third_round then
      (false, some ("Target rounds exceed number of songs (" ++
        toString num_songs ++ ")"))
    else if truthy third_round = true ∧ num_songs ≤ third_round.getD 0 then
      (false, some ("3rd place round (" ++ toString (third_round.getD 0) ++
        ") must be less than total songs (" ++ toString num_songs ++
        ") to allow blocker songs"))
    else (true, none)

/-- C5: `validate_round_targets` checks the ordering rules before the
minimum-round rules.  Whenever both `first_round` and `second_round` are
given (truthy) and `first_round ≥ second_round`, the result is the
ordering error `"2nd place round must be after 1st place round"` — no
matter what other rules (such as the minimum `first_round ≥ card_size`)
are also violated.  Instantiated at E4 = `validate(5, 50, 20, 10, 30)`
in the witness. -/
theorem validate_round_targets_order_first (N M : Nat) (r1 r2 r3 : Option Nat)
    (h1 : truthy r1 = true) (h2 : truthy r2 = true) (h : r2.getD 0 ≤ r1.getD 0) :
    validate_round_targets N M r1 r2 r3 =
      (false, some "2nd place round must be after 1st place round") := by
  simp [validate_round_targets, h1, h2, h]

/-- Witness for C5 at the spec's scenario E4: `validate(N=5, M=50, r1=20,
r2=10, R=30)` returns the ordering error message. -/
theorem validate_round_targets_order_first_witness :
    truthy (some 20) = true ∧ truthy (some 10) = true ∧
      (Option.getD (some 10) 0 ≤ Option.getD (some 20) 0) ∧
      validate_round_targets 5 50 (some 20) (some 10) (some 30) =
        (false, some "2nd place round must be after 1st place round") :=
  ⟨rfl, rfl, by decide,
    validate_round_targets_order_first 5 50 (some 20) (some 10) (some 30)
      rfl rfl (by decide)⟩

/-- A `0` entry contributes nothing to `filtered_max` (it is removed by
`filter(None, ...)`), first position. -/
theorem filtered_max_zero_fst (b c : Option Nat) :
    filtered_max (some 0) b c = filtered_max none b c := by
  simp [filtered_max]

/-- A `0` entry contributes nothing to `filtered_max`, middle position. -/
theorem filtered_max_zero_mid (a c : Option Nat) :
    filtered_max a (some 0) c = filtered_max a none c := by
  cases a <;> cases c <;> simp [filtered_max, List.filter_cons]

/-- A `0` entry contributes nothing to `filtered_max`, last position. -/
theorem filtered_max_zero_last (a b : Option Nat) :
    filtered_max a b (some 0) = filtered_max a b none := by
  cases a <;> cases b <;> simp [filtered_max, List.filter_cons]

/-- C10: `validate_round_targets` treats a target value of `0` as "not
provided" (Python truthiness): passing `0` in any of the three target
positions is indistinguishable from passing `None`, hence `0` is skipped
by every ordering, minimum, maximum and blocker-room check.  In
particular `validate(5, 50, 0, 20, 30)` returns Ok even though `0` is
below the first-place minimum of `N = 5`. -/
theorem validate_round_targets_zero_is_none :
    (∀ N M r2 r3, validate_round_targets N M (some 0) r2 r3 =
      validate_round_targets N M none r2 r3) ∧
    (∀ N M r1 r3, validate_round_targets N M r1 (some 0) r3 =
      validate_round_targets N M r1 none r3) ∧
    (∀ N M r1 r2, validate_round_targets N M r1 r2 (some 0) =
      validate_round_targets N M r1 r2 none) ∧
    validate_round_targets 5 50 (some 0) (some 20) (some 30) = (true, none) := by
  refine ⟨?_, ?_, ?_, by decide⟩ <;>
    (intro N M a b;
     simp [validate_round_targets, truthy, filtered_max_zero_fst,
       filtered_max_zero_mid, filtered_max_zero_last])

/-- Embedding of `is_called(song, called_songs)` (app.py lines 651-662):
a song counts as called when it is the reserved `"FREE SPACE"` marker or
a member of the called set. -/
def is_called (song : String) (called_songs : List String) : Bool :=
  song == "FREE SPACE" || called_songs.contains song

/-- Embedding of `count_complete_lines(card, called_songs)` (app.py lines
664-683): the number of complete rows and columns (no diagonals),
together with their descriptions, rows first.  `card[row][col]` is read
with `getD`; Python would raise `IndexError` on a ragged card, so the
theorems that need column semantics assume a square card. -/
def count_complete_lines (card : Card) (called_songs : List String) :
    Nat × List String :=
  let card_size := card.length
  let rowLines := card.enum.filterMap (fun p =>
    if p.2.all (fun song => is_called song called_songs) then
      some ("Row " ++ toString (p.1 + 1))
    else none)
  let colLines := (List.range card_size).filterMap (fun col =>
    if (List.range card_size).all (fun row =>
        is_called ((card.getD row []).getD col "") called_songs) then
      some ("Column " ++ toString (col + 1))
    else none)
  ((rowLines ++ colLines).length, rowLines ++ colLines)

/-- Embedding of `check_full_card(card, called_songs)` (app.py lines
685-694): every cell of the card has been called. -/
def check_full_card (card : Card) (called_songs : List String) : Bool :=
  card.all (fun row => row.all (fun song => is_called song called_songs))

/-- Embedding of `check_bingo_win(card, called_songs, place)` (app.py
lines 696-720): 1st place needs one complete line, 2nd place two, 3rd
place a full card.  Returns `(has_won, win_type)`. -/
def check_bingo_win (card : Card) (called_songs : List String) (place : Nat) :
    Bool × String :=
  if place = 1 then
    let r := count_complete_lines card called_songs
    if 1 ≤ r.1 then (true, r.2.getD 0 "") else (false, "")
  else if place = 2 then
    let r := count_complete_lines card called_songs
    if 2 ≤ r.1 then (true, r.2.getD 0 "" ++ ", " ++ r.2.getD 1 "") else (false, "")
  else if place = 3 then
    if check_full_card card called_songs = true then (true, "Full Card")
    else (false, "")
  else (false, "")

/-- The milestone record kept per card: the first round at which the card
has one complete line, two complete lines, and a full card (`None` while
not yet achieved), as in the `card_milestones` dictionaries of
`get_card_milestones` and `simulate_bingo_game`. -/
structure Milestones where
  one_line : Option Nat
  two_lines : Option Nat
  full_card : Option Nat
deriving DecidableEq

instance : Inhabited Milestones := ⟨⟨none, none, none⟩⟩

/-- One round of milestone tracking for one card, shared verbatim by
`get_card_milestones` (app.py lines 209-227) and `simulate_bingo_game`
(app.py lines 758-780): each still-unset milestone is set to the current
round number `k` when its predicate first holds on the called set. -/
def update_milestones (card : Card) (called : List String) (k : Nat)
    (m : Milestones) : Milestones :=
  let o := if m.one_line = none ∧ 1 ≤ (count_complete_lines card called).1 then
      some k else m.one_line
  let t := if m.two_lines = none ∧ 2 ≤ (count_complete_lines card called).1 then
      some k else m.two_lines
  let f := if m.full_card = none ∧ check_full_card card called = true then
      some k else m.full_card
  ⟨o, t, f⟩

/-- The 1-based round numbers of a game over `n` songs:
`enumerate(songs, 1)` yields rounds `[1, 2, ..., n]`, and the called set
after round `k` is `songs.take k`. -/
def roundsList (n : Nat) : List Nat := List.range' 1 n

/-- The round loop of `get_card_milestones` (app.py lines 192-233),
including its early exit: the loop breaks as soon as all three
milestones are set (the Python test `if one_line and two_lines and
full_card` is truthiness, but milestone values are rounds `≥ 1`, so it
coincides with `isSome`). -/
def gcm_loop (card : Card) (songs : List String) :
    List Nat → Milestones → Milestones
  | [], m => m
  | k :: rest, m =>
    let m1 := update_milestones card (songs.take k) k m
    if m1.one_line.isSome ∧ m1.two_lines.isSome ∧ m1.full_card.isSome then m1
    else gcm_loop card songs rest m1

/-- Embedding of `get_card_milestones(card, songs)` (app.py lines
192-233). -/
def get_card_milestones (card : Card) (songs : List String) : Milestones :=
  gcm_loop card songs (roundsList songs.length) ⟨none, none, none⟩

/-- The mutable state of `simulate_bingo_game`: per-card milestone
records plus the `place_winners` partial map `{1, 2, 3} → card index`. -/
structure SimState where
  milestones : List Milestones
  winner1 : Option Nat
  winner2 : Option Nat
  winner3 : Option Nat
deriving DecidableEq

/-- The winner scan for 1st and 3rd place (app.py lines 782-806): the
first card in index order that is not already a winner of some place and
currently satisfies the win condition for `place`. -/
def find_place_winner (cards : List Card) (called_songs : List String)
    (place : Nat) (winning : List Nat) : Option Nat :=
  (cards.enum.find? (fun p =>
    !(winning.contains p.1) && (check_bingo_win p.2 called_songs place).1)).map
    (fun p => p.1)

/-- The 2nd-place scan loop over `card_milestones.items()` (app.py lines
808-830).  The accumulator is `(earliest_2_lines,
earliest_2_lines_card)`.  A card equal to `place_winners[1]` is skipped;
a card whose `two_lines` round is set but below the (truthy) target is
skipped; otherwise the accumulator keeps the smallest `two_lines` seen so
far (strict `<`, so ties keep the earlier card index). -/
def find_second_loop (w1 t2 : Option Nat) :
    List (Nat × Milestones) → Option Nat × Option Nat → Option Nat × Option Nat
  | [], acc => acc
  | p :: rest, acc =>
    let acc' :=
      if some p.1 = w1 then acc
      else
        match p.2.two_lines with
        | none => acc
        | some v =>
          if truthy t2 = true ∧ v < t2.getD 0 then acc
          else if acc.1 = none ∨ v < acc.1.getD 0 then (some v, some p.1)
          else acc
    find_second_loop w1 t2 rest acc'

/-- The 2nd-place selection of one round (app.py lines 808-830). -/
def find_second_place (ms : List Milestones) (w1 t2 : Option Nat) : Option Nat :=
  (find_second_loop w1 t2 ms.enum (none, none)).2

/-- One round of `simulate_bingo_game` (the body of the loop at app.py
lines 758-833): update every card's milestones, then try to assign 1st
and 3rd place (in that order, each scan excluding all current winners),
then run the special 2nd-place rule (which excludes only the 1st-place
winner). -/
def sim_round (cards : List Card) (songs : List String) (t1 t2 t3 : Option Nat)
    (st : SimState) (k : Nat) : SimState :=
  let called := songs.take k
  let ms := (cards.zip st.milestones).map (fun p => update_milestones p.1 called k p.2)
  let w1 := if st.winner1 = none ∧ ¬(truthy t1 = true ∧ k < t1.getD 0) then
      find_place_winner cards called 1 ([st.winner1, st.winner2, st.winner3].filterMap id)
    else st.winner1
  let w3 := if st.winner3 = none ∧ ¬(truthy t3 = true ∧ k < t3.getD 0) then
      find_place_winner cards called 3 ([w1, st.winner2, st.winner3].filterMap id)
    else st.winner3
  let w2 := if st.winner2 = none ∧ (truthy t2 = false ∨ t2.getD 0 ≤ k) then
      find_second_place ms w1 t2
    else st.winner2
  ⟨ms, w1, w2, w3⟩

/-- The final state of `simulate_bingo_game(cards, songs,
first_winner_round, second_winner_round, third_winner_round)` (app.py
lines 722-833): the playlist is used in its given order (`call_order =
songs.copy()`), one `sim_round` per song. -/
def simulate_state (cards : List Card) (songs : List String)
    (t1 t2 t3 : Option Nat) : SimState :=
  (roundsList songs.length).foldl (sim_round cards songs t1 t2 t3)
    ⟨cards.map (fun _ => ⟨none, none, none⟩), none, none, none⟩

/-- One row of the DataFrame returned by `simulate_bingo_game` (app.py
lines 835-855). -/
structure ResultRow where
  card_index : Nat
  one_line_round : Option Nat
  two_lines_round : Option Nat
  full_card_round : Option Nat
  won_place : Option Nat
deriving DecidableEq

/-- The `Won Place` column (app.py lines 840-845): the first place in
order 1, 2, 3 whose winner is this card. -/
def won_place_of (st : SimState) (i : Nat) : Option Nat :=
  if st.winner1 = some i then some 1
  else if st.winner2 = some i then some 2
  else if st.winner3 = some i then some 3
  else none

/-- Embedding of the value returned by `simulate_bingo_game`: one row per
card with its milestone rounds and the place it won (if any). -/
def simulate_bingo_game (cards : List Card) (songs : List String)
    (t1 t2 t3 : Option Nat) : List ResultRow :=
  let st := simulate_state cards songs t1 t2 t3
  (List.range cards.length).map (fun i =>
    ⟨i + 1, (st.milestones.getD i default).one_line,
      (st.milestones.getD i default).two_lines,
      (st.milestones.getD i default).full_card,
      won_place_of st i⟩)

/-- C1 (evaluation at the failing input): `simulate_bingo_game` can
assign the same card two places.  Deck of two 2×2 cards over the playlist
`["a", "b", "c"]` with no targets: card 0 wins 1st place at round 1;
at round 3 card 1 completes a full card and is assigned 3rd place, and in
the same round the 2nd-place rule — which excludes only the 1st-place
winner (app.py line 815), not the just-assigned 3rd-place winner — also
assigns card 1 2nd place.  The returned table then reports card 1 as 2nd
and reports no 3rd-place winner at all, contradicting the claimed
invariant (and the operator instructions printed by the code itself,
"Each card can only win once"). -/
theorem simulate_card_wins_two_places :
    (simulate_state [[["a", "a"], ["b", "b"]], [["a", "c"], ["a", "c"]]]
        ["a", "b", "c"] none none none).winner1 = some 0 ∧
    (simulate_state [[["a", "a"], ["b", "b"]], [["a", "c"], ["a", "c"]]]
        ["a", "b", "c"] none none none).winner2 = some 1 ∧
    (simulate_state [[["a", "a"], ["b", "b"]], [["a", "c"], ["a", "c"]]]
        ["a", "b", "c"] none none none).winner3 = some 1 ∧
    (∀ row ∈ simulate_bingo_game [[["a", "a"], ["b", "b"]], [["a", "c"], ["a", "c"]]]
        ["a", "b", "c"] none none none, row.won_place ≠ some 3) := by
  decide

/-- C2 (counterexample): with `r2 = 2` on the same two-card deck, the
2nd-place winner is card 1 with `two_lines = 3`, even though card 0 has
`two_lines = 2`, which is set and `≥ r2` — card 0 is excluded only
because it already won 1st place, an exclusion the claim does not state.
So "among cards with `two_lines` set and `≥ r2` it picks the one with the
smallest `two_lines` round, breaking ties by the smaller card index" is
false as stated. -/
theorem second_place_not_argmin_counterexample :
    ¬ (∀ i ∈ ([0, 1] : List Nat),
        (simulate_state [[["a", "a"], ["b", "b"]], [["a", "c"], ["a", "c"]]]
          ["a", "b", "c"] none (some 2) none).winner2 = some i →
        ∀ j ∈ ([0, 1] : List Nat),
        ((simulate_state [[["a", "a"], ["b", "b"]], [["a", "c"], ["a", "c"]]]
          ["a", "b", "c"] none (some 2) none).milestones.getD j default).two_lines.isSome
            = true →
        2 ≤ ((simulate_state [[["a", "a"], ["b", "b"]], [["a", "c"], ["a", "c"]]]
          ["a", "b", "c"] none (some 2) none).milestones.getD j default).two_lines.getD 0 →
        (((simulate_state [[["a", "a"], ["b", "b"]], [["a", "c"], ["a", "c"]]]
          ["a", "b", "c"] none (some 2) none).milestones.getD i default).two_lines.getD 0 <
          ((simulate_state [[["a", "a"], ["b", "b"]], [["a", "c"], ["a", "c"]]]
          ["a", "b", "c"] none (some 2) none).milestones.getD j default).two_lines.getD 0 ∨
         (((simulate_state [[["a", "a"], ["b", "b"]], [["a", "c"], ["a", "c"]]]
          ["a", "b", "c"] none (some 2) none).milestones.getD i default).two_lines.getD 0 =
          ((simulate_state [[["a", "a"], ["b", "b"]], [["a", "c"], ["a", "c"]]]
          ["a", "b", "c"] none (some 2) none).milestones.getD j default).two_lines.getD 0 ∧
          i ≤ j))) := by
  decide

/-! ## Milestone-fold lemmas

`gcm_loop` (with its early exit) and the per-card milestone updates
inside `simulate_bingo_game` both iterate `update_milestones` over the
rounds in order.  We relate both to the plain fold `mrun` and
characterise each component as a first-hit search. -/

/-- The milestone loop without the early exit. -/
def mrun (card : Card) (songs : List String) (l : List Nat) (m : Milestones) :
    Milestones :=
  l.foldl (fun m k => update_milestones card (songs.take k) k m) m

theorem update_milestones_one (card : Card) (called : List String) (k : Nat)
    (m : Milestones) :
    (update_milestones card called k m).one_line =
      if m.one_line = none ∧ 1 ≤ (count_complete_lines card called).1 then some k
      else m.one_line := rfl

theorem update_milestones_two (card : Card) (called : List String) (k : Nat)
    (m : Milestones) :
    (update_milestones card called k m).two_lines =
      if m.two_lines = none ∧ 2 ≤ (count_complete_lines card called).1 then some k
      else m.two_lines := rfl

theorem update_milestones_full (card : Card) (called : List String) (k : Nat)
    (m : Milestones) :
    (update_milestones card called k m).full_card =
      if m.full_card = none ∧ check_full_card card called = true then some k
      else m.full_card := rfl

/-- Once all three milestones are set, an update changes nothing. -/
theorem update_milestones_of_allSome (card : Card) (called : List String)
    (k : Nat) (m : Milestones) (h1 : m.one_line.isSome = true)
    (h2 : m.two_lines.isSome = true) (h3 : m.full_card.isSome = true) :
    update_milestones card called k m = m := by
  cases m with
  | mk o t f =>
    cases o with
    | none => simp at h1
    | some vo =>
      cases t with
      | none => simp at h2
      | some vt =>
        cases f with
        | none => simp at h3
        | some vf => simp [update_milestones]

theorem mrun_nil (card : Card) (songs : List String) (m : Milestones) :
    mrun card songs [] m = m := rfl

theorem mrun_cons (card : Card) (songs : List String) (k : Nat) (l : List Nat)
    (m : Milestones) :
    mrun card songs (k :: l) m =
      mrun card songs l (update_milestones card (songs.take k) k m) := rfl

/-- `mrun` is the identity on an all-set milestone record. -/
theorem mrun_of_allSome (card : Card) (songs : List String) (l : List Nat)
    (m : Milestones) (h1 : m.one_line.isSome = true)
    (h2 : m.two_lines.isSome = true) (h3 : m.full_card.isSome = true) :
    mrun card songs l m = m := by
  induction l with
  | nil => rfl
  | cons k l ih =>
    rw [mrun_cons, update_milestones_of_allSome card _ k m h1 h2 h3, ih]

/-- The early exit of `get_card_milestones` is harmless: the loop with
break computes the same record as the plain fold over all rounds. -/
theorem gcm_loop_eq_mrun (card : Card) (songs : List String) (l : List Nat)
    (m : Milestones) : gcm_loop card songs l m = mrun card songs l m := by
  induction l generalizing m with
  | nil => rfl
  | cons k l ih =>
    rw [gcm_loop, mrun_cons]
    split
    · next h =>
      exact (mrun_of_allSome card songs l _ h.1 h.2.1 h.2.2).symm
    · exact ih _

/-- One step of a single-milestone first-hit search. -/
def milestone_step (pb : Nat → Bool) (o : Option Nat) (k : Nat) : Option Nat :=
  if o = none ∧ pb k = true then some k else o

theorem mrun_full_eq_foldl (card : Card) (songs : List String) (l : List Nat)
    (m : Milestones) :
    (mrun card songs l m).full_card =
      l.foldl (milestone_step (fun k => check_full_card card (songs.take k)))
        m.full_card := by
  induction l generalizing m with
  | nil => rfl
  | cons k l ih =>
    rw [mrun_cons, ih, List.foldl_cons]
    rfl

theorem mrun_one_eq_foldl (card : Card) (songs : List String) (l : List Nat)
    (m : Milestones) :
    (mrun card songs l m).one_line =
      l.foldl (milestone_step
        (fun k => 1 ≤ (count_complete_lines card (songs.take k)).1))
        m.one_line := by
  induction l generalizing m with
  | nil => rfl
  | cons k l ih =>
    rw [mrun_cons, ih, List.foldl_cons]
    congr 1
    simp only [update_milestones_one, milestone_step]
    split
    · next h => simp [h.1, h.2]
    · next h =>
      split
      · next h2 => exact absurd ⟨h2.1, by simpa using h2.2⟩ h
      · rfl

theorem mrun_two_eq_foldl (card : Card) (songs : List String) (l : List Nat)
    (m : Milestones) :
    (mrun card songs l m).two_lines =
      l.foldl (milestone_step
        (fun k => 2 ≤ (count_complete_lines card (songs.take k)).1))
        m.two_lines := by
  induction l generalizing m with
  | nil => rfl
  | cons k l ih =>
    rw [mrun_cons, ih, List.foldl_cons]
    congr 1
    simp only [update_milestones_two, milestone_step]
    split
    · next h => simp [h.1, h.2]
    · next h =>
      split
      · next h2 => exact absurd ⟨h2.1, by simpa using h2.2⟩ h
      · rfl

/-- A first-hit fold started on a set value never changes it. -/
theorem foldl_milestone_step_some (pb : Nat → Bool) (l : List Nat) (v : Nat) :
    l.foldl (milestone_step pb) (some v) = some v := by
  induction l with
  | nil => rfl
  | cons k l ih => simpa [milestone_step] using ih

/-- A first-hit fold started on `none` is `find?`. -/
theorem foldl_milestone_step_none (pb : Nat → Bool) (l : List Nat) :
    l.foldl (milestone_step pb) none = l.find? pb := by
  induction l with
  | nil => rfl
  | cons k l ih =>
    rw [List.foldl_cons]
    by_cases h : pb k = true
    · rw [List.find?_cons_of_pos _ h]
      simpa [milestone_step, h] using foldl_milestone_step_some pb l k
    · rw [List.find?_cons_of_neg _ (by simpa using h)]
      simpa [milestone_step, h] using ih

/-- First-hit search over the rounds `[1..n]`: if the predicate is false
before round `R` and true at `R ≤ n`, the search returns `R`. -/
theorem roundsList_find?_eq (pb : Nat → Bool) (R n : Nat) (h1 : 1 ≤ R)
    (h2 : R ≤ n) (hR : pb R = true)
    (hlt : ∀ k, 1 ≤ k → k < R → pb k = false) :
    (roundsList n).find? pb = some R := by
  have main : ∀ n s, s ≤ R → R < s + n →
      (∀ k, s ≤ k → k < R → pb k = false) →
      (List.range' s n).find? pb = some R := by
    intro n
    induction n with
    | zero => intro s hs hR' _; omega
    | succ n ih =>
      intro s hs hR' hk
      rw [List.range'_succ]
      rcases eq_or_lt_of_le hs with h | h
      · rw [h, List.find?_cons_of_pos _ hR]
      · rw [List.find?_cons_of_neg _ (by simp [hk s le_rfl h])]
        exact ih (s + 1) h (by omega) (fun k hk1 hk2 => hk k (by omega) hk2)
  exact main n 1 h1 (by omega) (fun k hk1 hk2 => hlt k hk1 hk2)

/-- `get_card_milestones` full-card component as a first-hit search. -/
theorem get_card_milestones_full (card : Card) (songs : List String) :
    (get_card_milestones card songs).full_card =
      (roundsList songs.length).find?
        (fun k => check_full_card card (songs.take k)) := by
  rw [get_card_milestones, gcm_loop_eq_mrun, mrun_full_eq_foldl]
  exact foldl_milestone_step_none _ _

/-! ## Projection of the simulator's milestone tracking

Inside `simulate_bingo_game`, the milestone record of card `i` evolves
independently of the other cards and of the winner assignments: it is
exactly the plain fold `mrun` of that card over the rounds.  This ties
the simulator's milestone columns to `get_card_milestones`. -/

theorem sim_round_milestones (cards : List Card) (songs : List String)
    (t1 t2 t3 : Option Nat) (st : SimState) (k : Nat) :
    (sim_round cards songs t1 t2 t3 st k).milestones =
      (cards.zip st.milestones).map
        (fun p => update_milestones p.1 (songs.take k) k p.2) := rfl

theorem sim_round_milestones_length (cards : List Card) (songs : List String)
    (t1 t2 t3 : Option Nat) (st : SimState) (k : Nat)
    (hlen : st.milestones.length = cards.length) :
    (sim_round cards songs t1 t2 t3 st k).milestones.length = cards.length := by
  simp [sim_round_milestones, hlen]

theorem sim_round_milestones_getD (cards : List Card) (songs : List String)
    (t1 t2 t3 : Option Nat) (st : SimState) (k i : Nat)
    (hlen : st.milestones.length = cards.length) (hi : i < cards.length) :
    (sim_round cards songs t1 t2 t3 st k).milestones.getD i default =
      update_milestones (cards.getD i default) (songs.take k) k
        (st.milestones.getD i default) := by
  have hz : (cards.zip st.milestones).length = cards.length := by
    simp [hlen]
  have hmi : i < st.milestones.length := by omega
  rw [sim_round_milestones,
    List.getD_eq_getElem _ _ (by simpa [hz] using hi),
    List.getElem_map, List.getElem_zip,
    List.getD_eq_getElem _ _ hi, List.getD_eq_getElem _ _ hmi]

theorem foldl_sim_round_milestones (cards : List Card) (songs : List String)
    (t1 t2 t3 : Option Nat) (l : List Nat) (st : SimState)
    (hlen : st.milestones.length = cards.length) :
    (l.foldl (sim_round cards songs t1 t2 t3) st).milestones.length =
        cards.length ∧
      ∀ i, i < cards.length →
        (l.foldl (sim_round cards songs t1 t2 t3) st).milestones.getD i default =
          mrun (cards.getD i default) songs l (st.milestones.getD i default) := by
  induction l generalizing st with
  | nil => exact ⟨hlen, fun i _ => rfl⟩
  | cons k l ih =>
    have hlen1 := sim_round_milestones_length cards songs t1 t2 t3 st k hlen
    obtain ⟨ha, hb⟩ := ih (sim_round cards songs t1 t2 t3 st k) hlen1
    refine ⟨ha, fun i hi => ?_⟩
    rw [List.foldl_cons, hb i hi,
      sim_round_milestones_getD cards songs t1 t2 t3 st k i hlen hi, mrun_cons]

theorem simulate_state_milestones_length (cards : List Card)
    (songs : List String) (t1 t2 t3 : Option Nat) :
    (simulate_state cards songs t1 t2 t3).milestones.length = cards.length :=
  (foldl_sim_round_milestones cards songs t1 t2 t3 (roundsList songs.length)
    ⟨cards.map (fun _ => ⟨none, none, none⟩), none, none, none⟩ (by simp)).1

theorem simulate_state_milestones_getD (cards : List Card)
    (songs : List String) (t1 t2 t3 : Option Nat) (i : Nat)
    (hi : i < cards.length) :
    (simulate_state cards songs t1 t2 t3).milestones.getD i default =
      mrun (cards.getD i default) songs (roundsList songs.length)
        ⟨none, none, none⟩ := by
  have h := (foldl_sim_round_milestones cards songs t1 t2 t3
    (roundsList songs.length)
    ⟨cards.map (fun _ => ⟨none, none, none⟩), none, none, none⟩ (by simp)).2 i hi
  rw [simulate_state, h]
  congr 1
  show (cards.map (fun _ => (⟨none, none, none⟩ : Milestones))).getD i default = _
  rw [List.getD_eq_getElem _ _ (by simpa using hi), List.getElem_map]

/-- C8: `simulate_bingo_game` is deterministic — it is a pure function of
the deck, the playlist and the targets, so two runs on the same inputs
are identical — and the playlist is consumed strictly in its given order,
never shuffled internally: the milestone record it computes for card `i`
is exactly `get_card_milestones` of that card over the playlist in its
given order (the source's independent in-order round scan, app.py lines
192-233, including its early exit). -/
theorem simulate_deterministic_in_order (cards : List Card)
    (songs : List String) (t1 t2 t3 : Option Nat) (i : Nat)
    (hi : i < cards.length) :
    simulate_bingo_game cards songs t1 t2 t3 =
        simulate_bingo_game cards songs t1 t2 t3 ∧
      (simulate_state cards songs t1 t2 t3).milestones.getD i default =
        get_card_milestones (cards.getD i default) songs := by
  refine ⟨rfl, ?_⟩
  rw [simulate_state_milestones_getD cards songs t1 t2 t3 i hi,
    get_card_milestones, gcm_loop_eq_mrun]

/-- Witness for C8 on a concrete two-card deck. -/
theorem simulate_deterministic_in_order_witness :
    (0 < ([[["a", "a"], ["b", "b"]], [["a", "c"], ["a", "c"]]] : List Card).length) ∧
      (simulate_bingo_game [[["a", "a"], ["b", "b"]], [["a", "c"], ["a", "c"]]]
          ["a", "b", "c"] none none none =
        simulate_bingo_game [[["a", "a"], ["b", "b"]], [["a", "c"], ["a", "c"]]]
          ["a", "b", "c"] none none none ∧
      (simulate_state [[["a", "a"], ["b", "b"]], [["a", "c"], ["a", "c"]]]
          ["a", "b", "c"] none none none).milestones.getD 0 default =
        get_card_milestones
          (([[["a", "a"], ["b", "b"]], [["a", "c"], ["a", "c"]]] : List Card).getD 0
            default) ["a", "b", "c"]) :=
  ⟨by decide,
    simulate_deterministic_in_order [[["a", "a"], ["b", "b"]], [["a", "c"], ["a", "c"]]]
      ["a", "b", "c"] none none none 0 (by decide)⟩

/-! ## Milestone monotonicity (C7) -/

/-- `getD` at an in-range index is a member of the list. -/
theorem getD_mem_of_lt {α : Type} (l : List α) (n : Nat) (d : α)
    (h : n < l.length) : l.getD n d ∈ l := by
  rw [List.getD_eq_getElem l d h]
  exact List.getElem_mem h

/-- A `filterMap` whose function hits on every element keeps the length. -/
theorem length_filterMap_of_all {α β : Type} (f : α → Option β) (l : List α)
    (h : ∀ a ∈ l, (f a).isSome = true) : (l.filterMap f).length = l.length := by
  induction l with
  | nil => rfl
  | cons a l ih =>
    obtain ⟨b, hb⟩ := Option.isSome_iff_exists.mp (h a (List.mem_cons_self a l))
    simp [List.filterMap_cons, hb, ih (fun a ha => h a (List.mem_cons_of_mem _ ha))]

/-- On a full square card every row and every column is complete, so
`count_complete_lines` returns `2 * N`. -/
theorem count_complete_lines_of_full (card : Card) (called : List String)
    (hsq : ∀ row ∈ card, row.length = card.length)
    (hfull : check_full_card card called = true) :
    (count_complete_lines card called).1 = 2 * card.length := by
  have hrows : ∀ row ∈ card, row.all (fun song => is_called song called) = true := by
    simpa [check_full_card, List.all_eq_true] using hfull
  have hrowlen : (card.enum.filterMap (fun p =>
      if p.2.all (fun song => is_called song called) = true then
        some ("Row " ++ toString (p.1 + 1))
      else none)).length = card.length := by
    rw [length_filterMap_of_all, List.enum_length]
    intro p hp
    have hmem : p.2 ∈ card := by
      have := List.mem_enum_iff_getElem?.mp hp
      exact List.getElem?_mem this
    rw [if_pos (hrows p.2 hmem)]
    rfl
  have hcollen : ((List.range card.length).filterMap (fun col =>
      if (List.range card.length).all (fun row =>
          is_called ((card.getD row []).getD col "") called) = true then
        some ("Column " ++ toString (col + 1))
      else none)).length = card.length := by
    rw [length_filterMap_of_all, List.length_range]
    intro col hcol
    rw [List.mem_range] at hcol
    have hall : (List.range card.length).all (fun row =>
        is_called ((card.getD row []).getD col "") called) = true := by
      rw [List.all_eq_true]
      intro row hrow
      rw [List.mem_range] at hrow
      have hrowmem : card.getD row [] ∈ card := getD_mem_of_lt card row [] hrow
      have hlen : (card.getD row []).length = card.length := hsq _ hrowmem
      have hcell : (card.getD row []).getD col "" ∈ card.getD row [] :=
        getD_mem_of_lt _ col "" (by omega)
      have := hrows _ hrowmem
      rw [List.all_eq_true] at this
      exact this _ hcell
    rw [if_pos hall]
    rfl
  show ((card.enum.filterMap _) ++ ((List.range card.length).filterMap _)).length = _
  rw [List.length_append, hrowlen, hcollen]
  omega

theorem count_complete_lines_nil (called : List String) :
    (count_complete_lines [] called).1 = 0 := rfl

/-- Invariant carried per card through the simulation rounds, with `s`
the next round to be processed: milestone values are earlier rounds, the
milestones are pairwise monotone, two lines implies one line, a full
(non-empty) card implies two lines, and an empty card never has lines. -/
def MonoInv (card : Card) (m : Milestones) (s : Nat) : Prop :=
  (∀ v, m.one_line = some v → v < s) ∧
  (∀ v, m.two_lines = some v → v < s) ∧
  (∀ v, m.full_card = some v → v < s) ∧
  (∀ u v, m.one_line = some u → m.two_lines = some v → u ≤ v) ∧
  (∀ v w, m.two_lines = some v → m.full_card = some w → v ≤ w) ∧
  (∀ u w, m.one_line = some u → m.full_card = some w → u ≤ w) ∧
  (m.two_lines.isSome = true → m.one_line.isSome = true) ∧
  (m.full_card.isSome = true → card = [] ∨ m.two_lines.isSome = true) ∧
  (card = [] → m.one_line = none ∧ m.two_lines = none)

theorem update_milestones_mono (card : Card) (called : List String) (s : Nat)
    (m : Milestones) (hsq : ∀ row ∈ card, row.length = card.length)
    (h : MonoInv card m s) :
    MonoInv card (update_milestones card called s m) (s + 1) := by
  obtain ⟨b1, b2, b3, p12, p23, p13, i21, i32, e0⟩ := h
  have hc0 : card = [] → (count_complete_lines card called).1 = 0 := by
    intro hc; rw [hc]; exact count_complete_lines_nil called
  have hfull2 : card ≠ [] → check_full_card card called = true →
      2 ≤ (count_complete_lines card called).1 := by
    intro hne hf
    rw [count_complete_lines_of_full card called hsq hf]
    have : 0 < card.length := List.length_pos.mpr hne
    omega
  simp only [MonoInv, update_milestones_one, update_milestones_two,
    update_milestones_full]
  refine ⟨?_, ?_, ?_, ?_, ?_, ?_, ?_, ?_, ?_⟩
  · intro v hv
    split at hv
    · cases hv; omega
    · exact lt_trans (b1 v hv) (by omega)
  · intro v hv
    split at hv
    · cases hv; omega
    · exact lt_trans (b2 v hv) (by omega)
  · intro v hv
    split at hv
    · cases hv; omega
    · exact lt_trans (b3 v hv) (by omega)
  · intro u v hu hv
    split at hv
    · next hcond =>
      cases hv
      split at hu
      · cases hu; exact le_rfl
      · exact le_of_lt (b1 u hu)
    · next hcond =>
      have ht : m.two_lines = some v := hv
      have ho : m.one_line.isSome = true := i21 (by simp [ht])
      split at hu
      · next hcond2 =>
        rw [hcond2.1] at ho; simp at ho
      · exact p12 u v hu ht
  · intro v w hv hw
    split at hw
    · next hcond =>
      cases hw
      split at hv
      · cases hv; exact le_rfl
      · exact le_of_lt (b2 v hv)
    · next hcond =>
      have hf : m.full_card = some w := hw
      rcases i32 (by simp [hf]) with hce | ht
      · have h0 := (e0 hce).2
        split at hv
        · next hcond2 =>
          have := hcond2.2
          rw [hc0 hce] at this
          omega
        · rw [h0] at hv; cases hv
      · obtain ⟨v0, hv0⟩ := Option.isSome_iff_exists.mp ht
        split at hv
        · next hcond2 => rw [hcond2.1] at hv0; cases hv0
        · exact p23 v w hv hf
  · intro u w hu hw
    split at hw
    · next hcond =>
      cases hw
      split at hu
      · cases hu; exact le_rfl
      · exact le_of_lt (b1 u hu)
    · next hcond =>
      have hf : m.full_card = some w := hw
      rcases i32 (by simp [hf]) with hce | ht
      · have h0 := (e0 hce).1
        split at hu
        · next hcond2 =>
          have := hcond2.2
          rw [hc0 hce] at this
          omega
        · rw [h0] at hu; cases hu
      · have ho := i21 ht
        obtain ⟨u0, hu0⟩ := Option.isSome_iff_exists.mp ho
        split at hu
        · next hcond2 => rw [hcond2.1] at hu0; cases hu0
        · exact p13 u w hu hf
  · intro ht
    split at ht
    · next hcond =>
      have h1 : 1 ≤ (count_complete_lines card called).1 := le_trans (by omega) hcond.2
      split
      · simp
      · next hcond2 =>
        rcases Option.eq_none_or_eq_some m.one_line with ho | ⟨u, hu⟩
        · exact absurd ⟨ho, h1⟩ hcond2
        · simp [hu]
    · have := i21 ht
      split
      · simp
      · exact this
  · intro hf
    split at hf
    · next hcond =>
      by_cases hce : card = []
      · exact Or.inl hce
      · refine Or.inr ?_
        have h2 := hfull2 hce hcond.2
        split
        · simp
        · next hcond2 =>
          rcases Option.eq_none_or_eq_some m.two_lines with ht | ⟨v, hv⟩
          · exact absurd ⟨ht, h2⟩ hcond2
          · simp [hv]
    · rcases i32 hf with hce | ht
      · exact Or.inl hce
      · refine Or.inr ?_
        split
        · simp
        · exact ht
  · intro hce
    have h0 := hc0 hce
    obtain ⟨ho, ht⟩ := e0 hce
    constructor
    · split
      · next hcond => rw [h0] at hcond; omega
      · exact ho
    · split
      · next hcond => rw [h0] at hcond; omega
      · exact ht

theorem mrun_mono (card : Card) (songs : List String)
    (hsq : ∀ row ∈ card, row.length = card.length) :
    ∀ (n s : Nat) (m : Milestones), MonoInv card m s →
      MonoInv card (mrun card songs (List.range' s n) m) (s + n) := by
  intro n
  induction n with
  | zero => intro s m h; simpa using h
  | succ n ih =>
    intro s m h
    rw [List.range'_succ, mrun_cons, show s + (n + 1) = (s + 1) + n by omega]
    exact ih (s + 1) _ (update_milestones_mono card _ s m hsq h)

theorem monoInv_init (card : Card) : MonoInv card ⟨none, none, none⟩ 1 := by
  simp [MonoInv]

/-- C7: in the table returned by `simulate_bingo_game`, every card's
milestone rounds are monotone whenever present: `one_line ≤ two_lines ≤
full` (pairwise, for each pair that is present).  Holds for every square
deck: once the called set completes a line it stays complete, and a
full (non-empty, square) card has all `2N ≥ 2` of its lines complete. -/
theorem simulate_milestones_monotone (cards : List Card) (songs : List String)
    (t1 t2 t3 : Option Nat)
    (hsq : ∀ card ∈ cards, ∀ row ∈ card, row.length = card.length) :
    ∀ r ∈ simulate_bingo_game cards songs t1 t2 t3,
      (∀ u v, r.one_line_round = some u → r.two_lines_round = some v → u ≤ v) ∧
      (∀ v w, r.two_lines_round = some v → r.full_card_round = some w → v ≤ w) ∧
      (∀ u w, r.one_line_round = some u → r.full_card_round = some w → u ≤ w) := by
  intro r hr
  simp only [simulate_bingo_game, List.mem_map, List.mem_range] at hr
  obtain ⟨i, hi, rfl⟩ := hr
  have hmem : cards.getD i default ∈ cards := getD_mem_of_lt cards i default hi
  have hm := mrun_mono (cards.getD i default) songs (hsq _ hmem)
    songs.length 1 ⟨none, none, none⟩ (monoInv_init _)
  rw [← roundsList, ← simulate_state_milestones_getD cards songs t1 t2 t3 i hi] at hm
  obtain ⟨_, _, _, p12, p23, p13, _, _, _⟩ := hm
  exact ⟨p12, p23, p13⟩

/-- Witness for C7 on a concrete square deck. -/
theorem simulate_milestones_monotone_witness :
    (∀ card ∈ ([[["a", "a"], ["b", "b"]], [["a", "c"], ["a", "c"]]] : List Card),
      ∀ row ∈ card, row.length = card.length) ∧
    ∀ r ∈ simulate_bingo_game [[["a", "a"], ["b", "b"]], [["a", "c"], ["a", "c"]]]
        ["a", "b", "c"] none none none,
      (∀ u v, r.one_line_round = some u → r.two_lines_round = some v → u ≤ v) ∧
      (∀ v w, r.two_lines_round = some v → r.full_card_round = some w → v ≤ w) ∧
      (∀ u w, r.one_line_round = some u → r.full_card_round = some w → u ≤ w) :=
  ⟨by decide,
    simulate_milestones_monotone [[["a", "a"], ["b", "b"]], [["a", "c"], ["a", "c"]]]
      ["a", "b", "c"] none none none (by decide)⟩

/-! ## The 2nd-place selection rule (C2)

The scan at app.py lines 813-827 keeps the eligible card with the
smallest `two_lines` round, ties broken by the earlier card index; a card
is eligible when its `two_lines` is set, not below the (truthy) target,
and it is not the current 1st-place winner. -/

/-- Eligibility of an `(index, milestones)` pair with round value `v` in
the 2nd-place scan. -/
def SecondOk (w1 t2 : Option Nat) (p : Nat × Milestones) (v : Nat) : Prop :=
  some p.1 ≠ w1 ∧ p.2.two_lines = some v ∧ ¬(truthy t2 = true ∧ v < t2.getD 0)

/-- Full specification of the 2nd-place scan loop, for a traversal list
whose indices are strictly increasing (as `ms.enum` is): provenance of
the result, lexicographic minimality over the scanned candidates, and
improvement over the incoming accumulator. -/
theorem find_second_loop_spec (w1 t2 : Option Nat) :
    ∀ (l : List (Nat × Milestones)),
      l.Pairwise (fun a b => a.1 < b.1) →
      ∀ (av ai : Option Nat),
      ((av = none ∧ ai = none) ∨
        (∃ v0 i0, av = some v0 ∧ ai = some i0 ∧ ∀ p ∈ l, i0 < p.1)) →
      ((find_second_loop w1 t2 l (av, ai) = (av, ai) ∨
          ∃ v i m, find_second_loop w1 t2 l (av, ai) = (some v, some i) ∧
            (i, m) ∈ l ∧ SecondOk w1 t2 (i, m) v) ∧
        (∀ v i, find_second_loop w1 t2 l (av, ai) = (some v, some i) →
          (∀ p ∈ l, ∀ w, SecondOk w1 t2 p w → v < w ∨ (v = w ∧ i ≤ p.1)) ∧
          (∀ v0, av = some v0 → v < v0 ∨ (v = v0 ∧ ai = some i)))) := by
  intro l
  induction l with
  | nil =>
    intro _ av ai _
    refine ⟨Or.inl rfl, fun v i hvi => ?_⟩
    refine ⟨fun p hp => absurd hp (List.not_mem_nil p), fun v0 hv0 => ?_⟩
    rw [find_second_loop] at hvi
    obtain ⟨h1, h2⟩ := Prod.mk.inj hvi
    right
    rw [h1] at hv0
    exact ⟨Option.some.inj hv0, h2⟩
  | cons p rest ih =>
    intro hsort av ai hacc
    rw [List.pairwise_cons] at hsort
    obtain ⟨hlt, hsort'⟩ := hsort
    -- the updated accumulator of this iteration
    by_cases hw : some p.1 = w1
    · -- skipped: current 1st-place winner
      have hstep : find_second_loop w1 t2 (p :: rest) (av, ai) =
          find_second_loop w1 t2 rest (av, ai) := by
        rw [find_second_loop]
        simp [hw]
      have hacc' : (av = none ∧ ai = none) ∨
          (∃ v0 i0, av = some v0 ∧ ai = some i0 ∧ ∀ q ∈ rest, i0 < q.1) := by
        rcases hacc with h | ⟨v0, i0, h1, h2, h3⟩
        · exact Or.inl h
        · exact Or.inr ⟨v0, i0, h1, h2, fun q hq => h3 q (List.mem_cons_of_mem _ hq)⟩
      obtain ⟨ihp, ihm⟩ := ih hsort' av ai hacc'
      rw [hstep]
      refine ⟨?_, fun v i hvi => ?_⟩
      · rcases ihp with h | ⟨v, i, m, h1, h2, h3⟩
        · exact Or.inl h
        · exact Or.inr ⟨v, i, m, h1, List.mem_cons_of_mem _ h2, h3⟩
      · obtain ⟨hmin, haccm⟩ := ihm v i hvi
        refine ⟨fun q hq w hok => ?_, haccm⟩
        rcases List.mem_cons.mp hq with rfl | hq'
        · exact absurd hw hok.1
        · exact hmin q hq' w hok
    · rcases htwo : p.2.two_lines with _ | v'
      · -- no two-lines round yet: skipped
        have hstep : find_second_loop w1 t2 (p :: rest) (av, ai) =
            find_second_loop w1 t2 rest (av, ai) := by
          rw [find_second_loop]
          simp [hw, htwo]
        have hacc' : (av = none ∧ ai = none) ∨
            (∃ v0 i0, av = some v0 ∧ ai = some i0 ∧ ∀ q ∈ rest, i0 < q.1) := by
          rcases hacc with h | ⟨v0, i0, h1, h2, h3⟩
          · exact Or.inl h
          · exact Or.inr ⟨v0, i0, h1, h2, fun q hq => h3 q (List.mem_cons_of_mem _ hq)⟩
        obtain ⟨ihp, ihm⟩ := ih hsort' av ai hacc'
        rw [hstep]
        refine ⟨?_, fun v i hvi => ?_⟩
        · rcases ihp with h | ⟨v, i, m, h1, h2, h3⟩
          · exact Or.inl h
          · exact Or.inr ⟨v, i, m, h1, List.mem_cons_of_mem _ h2, h3⟩
        · obtain ⟨hmin, haccm⟩ := ihm v i hvi
          refine ⟨fun q hq w hok => ?_, haccm⟩
          rcases List.mem_cons.mp hq with rfl | hq'
          · rw [hok.2.1] at htwo; cases htwo
          · exact hmin q hq' w hok
      · by_cases hgate : truthy t2 = true ∧ v' < t2.getD 0
        · -- below the target: skipped
          have hstep : find_second_loop w1 t2 (p :: rest) (av, ai) =
              find_second_loop w1 t2 rest (av, ai) := by
            rw [find_second_loop]
            simp [hw, htwo, hgate]
          have hacc' : (av = none ∧ ai = none) ∨
              (∃ v0 i0, av = some v0 ∧ ai = some i0 ∧ ∀ q ∈ rest, i0 < q.1) := by
            rcases hacc with h | ⟨v0, i0, h1, h2, h3⟩
            · exact Or.inl h
            · exact Or.inr ⟨v0, i0, h1, h2, fun q hq => h3 q (List.mem_cons_of_mem _ hq)⟩
          obtain ⟨ihp, ihm⟩ := ih hsort' av ai hacc'
          rw [hstep]
          refine ⟨?_, fun v i hvi => ?_⟩
          · rcases ihp with h | ⟨v, i, m, h1, h2, h3⟩
            · exact Or.inl h
            · exact Or.inr ⟨v, i, m, h1, List.mem_cons_of_mem _ h2, h3⟩
          · obtain ⟨hmin, haccm⟩ := ihm v i hvi
            refine ⟨fun q hq w hok => ?_, haccm⟩
            rcases List.mem_cons.mp hq with rfl | hq'
            · have : w = v' := by
                have := hok.2.1
                rw [htwo] at this
                exact (Option.some.injEq .. ▸ this.symm)
              rw [this] at hok
              exact absurd hgate hok.2.2
            · exact hmin q hq' w hok
        · have hokp : SecondOk w1 t2 p v' := ⟨hw, htwo, hgate⟩
          by_cases hupd : av = none ∨ v' < av.getD 0
          · -- the accumulator is replaced by (v', p.1)
            have hstep : find_second_loop w1 t2 (p :: rest) (av, ai) =
                find_second_loop w1 t2 rest (some v', some p.1) := by
              rw [find_second_loop]
              simp [hw, htwo, hgate, hupd]
            have hacc' : ((some v' : Option Nat) = none ∧
                  (some p.1 : Option Nat) = none) ∨
                (∃ v0 i0, (some v' : Option Nat) = some v0 ∧
                  (some p.1 : Option Nat) = some i0 ∧ ∀ q ∈ rest, i0 < q.1) :=
              Or.inr ⟨v', p.1, rfl, rfl, hlt⟩
            obtain ⟨ihp, ihm⟩ := ih hsort' (some v') (some p.1) hacc'
            rw [hstep]
            refine ⟨?_, fun v i hvi => ?_⟩
            · rcases ihp with h | ⟨v, i, m, h1, h2, h3⟩
              · exact Or.inr ⟨v', p.1, p.2, h, List.mem_cons_self p rest, hokp⟩
              · exact Or.inr ⟨v, i, m, h1, List.mem_cons_of_mem _ h2, h3⟩
            · obtain ⟨hmin, haccm⟩ := ihm v i hvi
              have hvv' : v < v' ∨ (v = v' ∧ i = p.1) := by
                rcases haccm v' rfl with h | ⟨h1, h2⟩
                · exact Or.inl h
                · exact Or.inr ⟨h1, (Option.some.inj h2).symm⟩
              refine ⟨fun q hq w hok => ?_, fun v0 hv0 => ?_⟩
              · rcases List.mem_cons.mp hq with rfl | hq'
                · have hw' : w = v' := by
                    have := hok.2.1
                    rw [htwo] at this
                    exact (Option.some.injEq .. ▸ this.symm)
                  rcases hvv' with h | ⟨h1, h2⟩
                  · exact Or.inl (hw' ▸ h)
                  · exact Or.inr ⟨hw' ▸ h1, le_of_eq h2⟩
                · exact hmin q hq' w hok
              · rcases hacc with ⟨h1, _⟩ | ⟨v1, i1, h1, h2, h3⟩
                · rw [h1] at hv0; cases hv0
                · rw [h1] at hv0
                  have hv1 : v1 = v0 := Option.some.inj hv0
                  have hlt1 : v' < v0 := by
                    rcases hupd with h | h
                    · rw [h1] at h; simp at h
                    · rw [h1] at h
                      simp only [Option.getD_some] at h
                      omega
                  rcases hvv' with h | ⟨h2', _⟩
                  · exact Or.inl (lt_trans h hlt1)
                  · exact Or.inl (h2' ▸ hlt1)
          · -- the accumulator is kept
            have hstep : find_second_loop w1 t2 (p :: rest) (av, ai) =
                find_second_loop w1 t2 rest (av, ai) := by
              rw [find_second_loop]
              simp [hw, htwo, hgate, hupd]
            have hacc' : (av = none ∧ ai = none) ∨
                (∃ v0 i0, av = some v0 ∧ ai = some i0 ∧ ∀ q ∈ rest, i0 < q.1) := by
              rcases hacc with h | ⟨v0, i0, h1, h2, h3⟩
              · exact Or.inl h
              · exact Or.inr ⟨v0, i0, h1, h2, fun q hq => h3 q (List.mem_cons_of_mem _ hq)⟩
            obtain ⟨ihp, ihm⟩ := ih hsort' av ai hacc'
            rw [hstep]
            have hav : ∃ v0, av = some v0 := by
              rcases Option.eq_none_or_eq_some av with h | h
              · exact absurd (Or.inl h) hupd
              · exact h
            obtain ⟨v0, hv0⟩ := hav
            have hv0v' : v0 ≤ v' := by
              by_contra hcon
              exact hupd (Or.inr (by rw [hv0]; exact Nat.lt_of_not_le hcon))
            refine ⟨?_, fun v i hvi => ?_⟩
            · rcases ihp with h | ⟨v, i, m, h1, h2, h3⟩
              · exact Or.inl h
              · exact Or.inr ⟨v, i, m, h1, List.mem_cons_of_mem _ h2, h3⟩
            · obtain ⟨hmin, haccm⟩ := ihm v i hvi
              refine ⟨fun q hq w hok => ?_, haccm⟩
              rcases List.mem_cons.mp hq with rfl | hq'
              · have hw' : w = v' := by
                  have := hok.2.1
                  rw [htwo] at this
                  exact (Option.some.injEq .. ▸ this.symm)
                rcases haccm v0 hv0 with h | ⟨h1, h2⟩
                · exact Or.inl (by omega)
                · rcases lt_or_eq_of_le hv0v' with h3 | h3
                  · exact Or.inl (by omega)
                  · refine Or.inr ⟨by omega, ?_⟩
                    rcases hacc with ⟨hc1, _⟩ | ⟨v1, i1, hc1, hc2, hc3⟩
                    · rw [hc1] at hv0; cases hv0
                    · have : i = i1 := by
                        rw [hc2] at h2
                        exact (Option.some.inj h2).symm
                      rw [this]
                      exact le_of_lt (hc3 q (List.mem_cons_self q rest))
              · exact hmin q hq' w hok

theorem enum_pairwise_fst_lt (ms : List Milestones) :
    ms.enum.Pairwise (fun a b => a.1 < b.1) := by
  have h := List.pairwise_lt_range ms.length
  rw [← List.enum_map_fst ms] at h
  exact List.pairwise_map.mp h

/-- Soundness of one 2nd-place selection: the chosen card index is in
range, eligible, and lexicographically minimal among all eligible
cards. -/
theorem find_second_place_spec (ms : List Milestones) (w1 t2 : Option Nat)
    (i : Nat) (h : find_second_place ms w1 t2 = some i) :
    ∃ v, i < ms.length ∧ (ms.getD i default).two_lines = some v ∧
      ¬(truthy t2 = true ∧ v < t2.getD 0) ∧ some i ≠ w1 ∧
      (∀ j, j < ms.length → j ≠ i → ∀ w,
        (ms.getD j default).two_lines = some w →
        ¬(truthy t2 = true ∧ w < t2.getD 0) → some j ≠ w1 →
        v < w ∨ (v = w ∧ i < j)) := by
  obtain ⟨hp, hm⟩ := find_second_loop_spec w1 t2 ms.enum (enum_pairwise_fst_lt ms)
    none none (Or.inl ⟨rfl, rfl⟩)
  rw [find_second_place] at h
  rcases hp with heq | ⟨v, i', m, heq, hmem, hok⟩
  · rw [heq] at h; cases h
  · rw [heq] at h
    have hii : i' = i := Option.some.inj h
    subst hii
    have hgm := List.mk_mem_enum_iff_getElem?.mp hmem
    have hilen : i' < ms.length := by
      by_contra hc
      rw [List.getElem?_eq_none (by omega)] at hgm
      cases hgm
    have hmsi : ms.getD i' default = m := by
      rw [List.getD_eq_getElem _ _ hilen]
      rw [List.getElem?_eq_getElem hilen] at hgm
      exact Option.some.inj hgm
    obtain ⟨hok1, hok2, hok3⟩ := hok
    refine ⟨v, hilen, by rw [hmsi]; exact hok2, hok3, hok1, ?_⟩
    intro j hj hne w hw hwgate hwne
    obtain ⟨hmin, _⟩ := hm v i' heq
    have hjmem : (j, ms.getD j default) ∈ ms.enum := by
      rw [List.mk_mem_enum_iff_getElem?, List.getD_eq_getElem _ _ hj]
      exact List.getElem?_eq_getElem hj
    rcases hmin (j, ms.getD j default) hjmem w ⟨hwne, hw, hwgate⟩ with h1 | ⟨h1, h2⟩
    · exact Or.inl h1
    · exact Or.inr ⟨h1, by omega⟩

/-- The card found by the 1st/3rd-place scan is never one of the current
winners (the scan filters them out, app.py lines 798-801). -/
theorem find_place_winner_not_mem (cards : List Card) (called : List String)
    (place : Nat) (winning : List Nat) (u : Nat)
    (h : find_place_winner cards called place winning = some u) : u ∉ winning := by
  rw [find_place_winner] at h
  rcases hf : cards.enum.find? (fun p =>
      !(winning.contains p.1) && (check_bingo_win p.2 called place).1) with _ | p
  · rw [hf] at h; cases h
  · rw [hf] at h
    have hu : p.1 = u := Option.some.inj h
    have hp := List.find?_some hf
    rw [Bool.and_eq_true, Bool.not_eq_true'] at hp
    obtain ⟨hp1, hp2⟩ := hp
    intro hmem
    rw [← hu] at hmem
    rw [show winning.contains p.1 = winning.elem p.1 from rfl,
      List.elem_eq_mem, decide_eq_false_iff_not] at hp1
    exact hp1 hmem

/-- Winner components of one simulation round, as equations. -/
theorem sim_round_winner1 (cards : List Card) (songs : List String)
    (t1 t2 t3 : Option Nat) (st : SimState) (k : Nat) :
    (sim_round cards songs t1 t2 t3 st k).winner1 =
      if st.winner1 = none ∧ ¬(truthy t1 = true ∧ k < t1.getD 0) then
        find_place_winner cards (songs.take k) 1
          ([st.winner1, st.winner2, st.winner3].filterMap id)
      else st.winner1 := rfl

theorem sim_round_winner3 (cards : List Card) (songs : List String)
    (t1 t2 t3 : Option Nat) (st : SimState) (k : Nat) :
    (sim_round cards songs t1 t2 t3 st k).winner3 =
      if st.winner3 = none ∧ ¬(truthy t3 = true ∧ k < t3.getD 0) then
        find_place_winner cards (songs.take k) 3
          ([(sim_round cards songs t1 t2 t3 st k).winner1, st.winner2,
            st.winner3].filterMap id)
      else st.winner3 := rfl

theorem sim_round_winner2 (cards : List Card) (songs : List String)
    (t1 t2 t3 : Option Nat) (st : SimState) (k : Nat) :
    (sim_round cards songs t1 t2 t3 st k).winner2 =
      if st.winner2 = none ∧ (truthy t2 = false ∨ t2.getD 0 ≤ k) then
        find_second_place (sim_round cards songs t1 t2 t3 st k).milestones
          (sim_round cards songs t1 t2 t3 st k).winner1 t2
      else st.winner2 := rfl

/-- Invariant for the amended C2, carried through the simulation with `s`
the next round to process: milestone rounds already set are `< s`, and if
2nd place is assigned, its card is eligible (two lines at or after the
target), is not the 1st-place winner, and is lexicographically minimal
(by `(two_lines, index)`) among all cards with `two_lines` set at or
after the target other than the 1st-place winner. -/
def W2Inv (cards : List Card) (t2 : Option Nat) (st : SimState) (s : Nat) :
    Prop :=
  st.milestones.length = cards.length ∧
  (∀ j v, (st.milestones.getD j default).two_lines = some v → v < s) ∧
  (∀ i, st.winner2 = some i →
    ∃ v, (st.milestones.getD i default).two_lines = some v ∧
      t2.getD 0 ≤ v ∧
      st.winner1 ≠ some i ∧
      (∀ j, j < cards.length → j ≠ i → ∀ w,
        (st.milestones.getD j default).two_lines = some w →
        t2.getD 0 ≤ w →
        st.winner1 = some j ∨ v < w ∨ (v = w ∧ i < j)))

/-- A set `two_lines` round survives a milestone update unchanged. -/
theorem update_milestones_two_stable (card : Card) (called : List String)
    (k : Nat) (m : Milestones) (v : Nat) (h : m.two_lines = some v) :
    (update_milestones card called k m).two_lines = some v := by
  rw [update_milestones_two]
  simp [h]

/-- A set `two_lines` in an updated record comes from the old record or
is the current round. -/
theorem update_milestones_two_cases (card : Card) (called : List String)
    (k : Nat) (m : Milestones) (w : Nat)
    (h : (update_milestones card called k m).two_lines = some w) :
    m.two_lines = some w ∨ (m.two_lines = none ∧ w = k) := by
  rw [update_milestones_two] at h
  split at h
  · next hc => exact Or.inr ⟨hc.1, (Option.some.inj h).symm⟩
  · exact Or.inl h

theorem sim_round_W2Inv (cards : List Card) (songs : List String)
    (t1 t2 t3 : Option Nat) (ht2 : truthy t2 = true) (st : SimState) (s : Nat)
    (h : W2Inv cards t2 st s) :
    W2Inv cards t2 (sim_round cards songs t1 t2 t3 st s) (s + 1) := by
  obtain ⟨hlen, hbound, hw2⟩ := h
  have hlen' := sim_round_milestones_length cards songs t1 t2 t3 st s hlen
  -- milestone access in the new state
  have hget : ∀ j, j < cards.length →
      (sim_round cards songs t1 t2 t3 st s).milestones.getD j default =
        update_milestones (cards.getD j default) (songs.take s) s
          (st.milestones.getD j default) :=
    fun j hj => sim_round_milestones_getD cards songs t1 t2 t3 st s j hlen hj
  have hget_out : ∀ j, cards.length ≤ j →
      (sim_round cards songs t1 t2 t3 st s).milestones.getD j default = default :=
    fun j hj => List.getD_eq_default _ _ (by omega)
  have hold_out : ∀ j, cards.length ≤ j →
      st.milestones.getD j default = default :=
    fun j hj => List.getD_eq_default _ _ (by omega)
  -- winner1 transition facts
  have hw1_stable : ∀ u, st.winner1 = some u →
      (sim_round cards songs t1 t2 t3 st s).winner1 = some u := by
    intro u hu
    rw [sim_round_winner1]
    split
    · next hc => rw [hu] at hc; cases hc.1
    · exact hu
  have hw1_new : st.winner1 = none →
      (sim_round cards songs t1 t2 t3 st s).winner1 = none ∨
      ∃ u, (sim_round cards songs t1 t2 t3 st s).winner1 = some u ∧
        u ∉ ([st.winner1, st.winner2, st.winner3].filterMap id) := by
    intro hu
    rw [sim_round_winner1]
    split
    · next hc =>
      rcases hfind : find_place_winner cards (songs.take s) 1
          ([st.winner1, st.winner2, st.winner3].filterMap id) with _ | u
      · exact Or.inl rfl
      · exact Or.inr ⟨u, rfl,
          find_place_winner_not_mem cards (songs.take s) 1 _ u hfind⟩
    · exact Or.inl hu
  refine ⟨hlen', ?_, ?_⟩
  · -- value bound
    intro j v hv
    rcases Nat.lt_or_ge j cards.length with hj | hj
    · rw [hget j hj] at hv
      rcases update_milestones_two_cases _ _ _ _ _ hv with h1 | ⟨_, h2⟩
      · exact lt_trans (hbound j v h1) (by omega)
      · omega
    · rw [hget_out j hj] at hv
      cases hv
  · -- the winner2 clause
    intro i hi
    rw [sim_round_winner2] at hi
    split at hi
    · next hgate =>
      -- winner2 assigned this round by the scan
      obtain ⟨v, hilen, htwo, hvgate, hne, hmin⟩ :=
        find_second_place_spec _ _ t2 i hi
      rw [hlen'] at hilen
      refine ⟨v, htwo, ?_, fun hc => hne hc.symm, ?_⟩
      · rcases Nat.lt_or_ge v (t2.getD 0) with hv | hv
        · exact absurd ⟨ht2, hv⟩ hvgate
        · exact hv
      · intro j hj hji w hw hwge
        by_cases hjw1 : (sim_round cards songs t1 t2 t3 st s).winner1 = some j
        · exact Or.inl hjw1
        · have := hmin j (by omega) hji w hw
            (fun hc => absurd hc.2 (by omega)) (fun hc => hjw1 hc.symm)
          exact Or.inr this
    · next hgate =>
      -- winner2 unchanged; it was already some i
      obtain ⟨v, htwo, hge, hne1, hmin⟩ := hw2 i hi
      have hilen : i < cards.length := by
        by_contra hc
        rw [hold_out i (by omega)] at htwo
        cases htwo
      have htwo' : ((sim_round cards songs t1 t2 t3 st s).milestones.getD i
          default).two_lines = some v := by
        rw [hget i hilen]
        exact update_milestones_two_stable _ _ _ _ v htwo
      refine ⟨v, htwo', hge, ?_, ?_⟩
      · -- new winner1 is still not i
        rcases hu : st.winner1 with _ | u
        · rcases hw1_new hu with h1 | ⟨u, h1, h2⟩
          · rw [h1]; exact fun hc => by cases hc
          · rw [h1]
            intro hc
            have hui : u = i := Option.some.inj hc
            refine h2 ?_
            rw [hui]
            have hmem2 : some i ∈ [st.winner1, st.winner2, st.winner3] := by
              rw [← hi]
              exact List.mem_cons_of_mem _ (List.mem_cons_self _ _)
            exact List.mem_filterMap.mpr ⟨some i, hmem2, rfl⟩
        · rw [hw1_stable u hu]
          rw [hu] at hne1
          exact hne1
      · intro j hj hji w hw hwge
        rw [hget j hj] at hw
        rcases update_milestones_two_cases _ _ _ _ _ hw with h1 | ⟨_, h2⟩
        · rcases hmin j hj hji w h1 hwge with h2 | h2
          · obtain ⟨u, hu⟩ : ∃ u, st.winner1 = some u := ⟨j, h2⟩
            rw [hu] at h2
            exact Or.inl (by rw [hw1_stable u hu]; exact h2)
          · exact Or.inr h2
        · -- a fresh two-lines this round is strictly later than v
          have : v < s := hbound i v htwo
          exact Or.inr (Or.inl (by omega))

theorem foldl_W2Inv (cards : List Card) (songs : List String)
    (t1 t2 t3 : Option Nat) (ht2 : truthy t2 = true) :
    ∀ (n s : Nat) (st : SimState), W2Inv cards t2 st s →
      W2Inv cards t2
        ((List.range' s n).foldl (sim_round cards songs t1 t2 t3) st) (s + n) := by
  intro n
  induction n with
  | zero => intro s st h; simpa using h
  | succ n ih =>
    intro s st h
    rw [List.range'_succ, List.foldl_cons,
      show s + (n + 1) = (s + 1) + n by omega]
    exact ih (s + 1) _ (sim_round_W2Inv cards songs t1 t2 t3 ht2 st s h)

theorem W2Inv_init (cards : List Card) (t2 : Option Nat) :
    W2Inv cards t2
      ⟨cards.map (fun _ => ⟨none, none, none⟩), none, none, none⟩ 1 := by
  refine ⟨by simp, ?_, ?_⟩
  · intro j v hv
    rcases Nat.lt_or_ge j cards.length with hj | hj
    · rw [List.getD_eq_getElem _ _ (by simpa using hj), List.getElem_map] at hv
      cases hv
    · rw [List.getD_eq_default _ _ (by simpa using hj)] at hv
      cases hv
  · intro i hi
    cases hi

/-- C2 (amended): when the 2nd-place target `r2` is given (truthy), the
card assigned 2nd place by `simulate_bingo_game` has its `two_lines`
milestone set and `≥ r2` (so no card with `two_lines < r2` is ever
assigned 2nd place), it is not the 1st-place winner, and among all other
cards with `two_lines` set and `≥ r2` — the 1st-place winner excepted —
it has the smallest `two_lines` round, ties broken by the smaller card
index. -/
theorem second_place_earliest_at_or_after_target (cards : List Card)
    (songs : List String) (t1 t2 t3 : Option Nat) (ht2 : truthy t2 = true)
    (i : Nat) (hw : (simulate_state cards songs t1 t2 t3).winner2 = some i) :
    ∃ v, ((simulate_state cards songs t1 t2 t3).milestones.getD i
        default).two_lines = some v ∧
      t2.getD 0 ≤ v ∧
      (simulate_state cards songs t1 t2 t3).winner1 ≠ some i ∧
      (∀ j, j < cards.length → j ≠ i → ∀ w,
        ((simulate_state cards songs t1 t2 t3).milestones.getD j
          default).two_lines = some w →
        t2.getD 0 ≤ w →
        (simulate_state cards songs t1 t2 t3).winner1 = some j ∨
          v < w ∨ (v = w ∧ i < j)) := by
  have h := foldl_W2Inv cards songs t1 t2 t3 ht2 songs.length 1
    ⟨cards.map (fun _ => ⟨none, none, none⟩), none, none, none⟩
    (W2Inv_init cards t2)
  exact h.2.2 i hw

/-- Witness for the amended C2 at a concrete deck: with `r2 = 2`, card 1
is assigned 2nd place with `two_lines = 3 ≥ 2`, card 0 being excused as
the 1st-place winner. -/
theorem second_place_earliest_at_or_after_target_witness :
    truthy (some 2) = true ∧
    (simulate_state [[["a", "a"], ["b", "b"]], [["a", "c"], ["a", "c"]]]
        ["a", "b", "c"] none (some 2) none).winner2 = some 1 ∧
    ∃ v, ((simulate_state [[["a", "a"], ["b", "b"]], [["a", "c"], ["a", "c"]]]
        ["a", "b", "c"] none (some 2) none).milestones.getD 1
        default).two_lines = some v ∧
      (some 2 : Option Nat).getD 0 ≤ v ∧
      (simulate_state [[["a", "a"], ["b", "b"]], [["a", "c"], ["a", "c"]]]
        ["a", "b", "c"] none (some 2) none).winner1 ≠ some 1 ∧
      (∀ j, j < ([[["a", "a"], ["b", "b"]], [["a", "c"], ["a", "c"]]] :
          List Card).length → j ≠ 1 → ∀ w,
        ((simulate_state [[["a", "a"], ["b", "b"]], [["a", "c"], ["a", "c"]]]
          ["a", "b", "c"] none (some 2) none).milestones.getD j
          default).two_lines = some w →
        (some 2 : Option Nat).getD 0 ≤ w →
        (simulate_state [[["a", "a"], ["b", "b"]], [["a", "c"], ["a", "c"]]]
          ["a", "b", "c"] none (some 2) none).winner1 = some j ∨
          v < w ∨ (v = w ∧ 1 < j)) :=
  ⟨rfl, by decide,
    second_place_earliest_at_or_after_target
      [[["a", "a"], ["b", "b"]], [["a", "c"], ["a", "c"]]] ["a", "b", "c"]
      none (some 2) none rfl 1 (by decide)⟩

/-! ## Grid placement (`_place_songs_on_card`) -/

/-- `random.choice(l)` modelled by an oracle index `r`: the element at
position `r % len(l)`.  For a non-empty list the result is a member for
every `r`, and every member is reachable by some `r`. -/
def choiceIdx (l : List String) (r : Nat) : String := l.getD (r % l.length) ""

theorem choiceIdx_mem (l : List String) (r : Nat) (h : l ≠ []) :
    choiceIdx l r ∈ l := by
  have hlen : 0 < l.length := List.length_pos.mpr h
  exact getD_mem_of_lt l _ "" (Nat.mod_lt r hlen)

/-- Embedding of `_place_songs_on_card(selected_songs, card_size,
free_space)` (app.py lines 553-573).  The source walks the grid in
row-major order with a running `song_idx` counter that skips the FREE
center cell; at cell `(i, j)` the counter equals the number of non-free
cells before `(i, j)`, which is `i*N + j` minus one when the center cell
`(N/2, N/2)` lies strictly before `(i, j)`.  Cells beyond the end of
`selected_songs` fall back to `selected_songs[0]` (or `""` when empty),
as in the source. -/
def place_songs_on_card (selected : List String) (card_size : Nat)
    (free_space : Bool) : Card :=
  let center := card_size / 2
  (List.range card_size).map (fun i =>
    (List.range card_size).map (fun j =>
      if free_space = true ∧ card_size % 2 = 1 ∧ i = center ∧ j = center then
        "FREE SPACE"
      else
        let song_idx := i * card_size + j -
          (if free_space = true ∧ card_size % 2 = 1 ∧
              (center < i ∨ (i = center ∧ center < j)) then 1 else 0)
        if song_idx < selected.length then selected.getD song_idx ""
        else selected.getD 0 ""))

theorem place_songs_on_card_length (selected : List String) (card_size : Nat)
    (free_space : Bool) :
    (place_songs_on_card selected card_size free_space).length = card_size := by
  simp [place_songs_on_card]

theorem place_songs_on_card_row_length (selected : List String)
    (card_size : Nat) (free_space : Bool) (row : List String)
    (h : row ∈ place_songs_on_card selected card_size free_space) :
    row.length = card_size := by
  simp only [place_songs_on_card, List.mem_map, List.mem_range] at h
  obtain ⟨i, _, rfl⟩ := h
  simp

theorem place_songs_on_card_cell (selected : List String) (card_size : Nat)
    (free_space : Bool) (i j : Nat) (hi : i < card_size) (hj : j < card_size) :
    ((place_songs_on_card selected card_size free_space).getD i []).getD j "" =
      (if free_space = true ∧ card_size % 2 = 1 ∧ i = card_size / 2 ∧
          j = card_size / 2 then "FREE SPACE"
      else
        let song_idx := i * card_size + j -
          (if free_space = true ∧ card_size % 2 = 1 ∧
              (card_size / 2 < i ∨ (i = card_size / 2 ∧ card_size / 2 < j))
            then 1 else 0)
        if song_idx < selected.length then selected.getD song_idx ""
        else selected.getD 0 "") := by
  have h1 : (place_songs_on_card selected card_size free_space).getD i [] =
      (List.range card_size).map (fun j =>
        if free_space = true ∧ card_size % 2 = 1 ∧ i = card_size / 2 ∧
            j = card_size / 2 then "FREE SPACE"
        else
          let song_idx := i * card_size + j -
            (if free_space = true ∧ card_size % 2 = 1 ∧
                (card_size / 2 < i ∨ (i = card_size / 2 ∧ card_size / 2 < j))
              then 1 else 0)
          if song_idx < selected.length then selected.getD song_idx ""
          else selected.getD 0 "") := by
    rw [List.getD_eq_getElem _ _
      (by rw [place_songs_on_card_length]; exact hi)]
    simp only [place_songs_on_card, List.getElem_map, List.getElem_range]
  rw [h1, List.getD_eq_getElem _ _ (by simpa using hj),
    List.getElem_map, List.getElem_range]

/-- Every cell of the placed grid is the FREE marker or an element of the
placed list (when the list is non-empty). -/
theorem place_songs_on_card_cell_mem (selected : List String)
    (card_size : Nat) (free_space : Bool) (hsel : selected ≠ [])
    (row : List String)
    (hrow : row ∈ place_songs_on_card selected card_size free_space)
    (s : String) (hs : s ∈ row) : s = "FREE SPACE" ∨ s ∈ selected := by
  simp only [place_songs_on_card, List.mem_map, List.mem_range] at hrow
  obtain ⟨i, hi, rfl⟩ := hrow
  simp only [List.mem_map, List.mem_range] at hs
  obtain ⟨j, hj, rfl⟩ := hs
  have hlen : 0 < selected.length := List.length_pos.mpr hsel
  split
  · exact Or.inl rfl
  · refine Or.inr ?_
    dsimp only
    split <;>
    · split
      · next h => exact getD_mem_of_lt selected _ "" h
      · exact getD_mem_of_lt selected 0 "" hlen

/-- Surjectivity of the placement: each position of the placed list
(of the exact length the constructors use, `N²−1` with free space else
`N²`) lands on some grid cell. -/
theorem place_songs_on_card_surj (selected : List String) (card_size : Nat)
    (free_space : Bool) (hN : 1 ≤ card_size)
    (hlen : selected.length =
      if free_space = true then card_size * card_size - 1
      else card_size * card_size)
    (p : Nat) (hp : p < selected.length) :
    ∃ i j, i < card_size ∧ j < card_size ∧
      ((place_songs_on_card selected card_size free_space).getD i []).getD j ""
        = selected.getD p "" := by
  have hselNN : selected.length ≤ card_size * card_size := by
    rw [hlen]; split <;> omega
  by_cases hfo : free_space = true ∧ card_size % 2 = 1
  · obtain ⟨c, hcs, hcdiv⟩ : ∃ c, card_size = 2 * c + 1 ∧ card_size / 2 = c :=
      ⟨card_size / 2, by omega, rfl⟩
    have hccs : c < card_size := by omega
    by_cases hpc : p < c * card_size + c
    · -- before the skipped center cell
      obtain ⟨a, b, hab, hb⟩ : ∃ a b, a * card_size + b = p ∧ b < card_size :=
        ⟨p / card_size, p % card_size,
          by rw [Nat.mul_comm]; exact Nat.div_add_mod p card_size,
          Nat.mod_lt _ (by omega)⟩
      have hacs : a * card_size < card_size * card_size := by omega
      have ha : a < card_size := Nat.lt_of_mul_lt_mul_right hacs
      refine ⟨a, b, ha, hb, ?_⟩
      rw [place_songs_on_card_cell _ _ _ _ _ ha hb, hcdiv]
      have hno_big : ¬ c < a := by
        intro hbig
        have h1 : (c + 1) * card_size ≤ a * card_size :=
          Nat.mul_le_mul_right card_size (by omega)
        have h2 : (c + 1) * card_size = c * card_size + card_size := by ring
        omega
      have hnotc : ¬(free_space = true ∧ card_size % 2 = 1 ∧ a = c ∧ b = c) := by
        rintro ⟨_, _, h1, h2⟩
        subst h1
        omega
      have hnotafter : ¬(free_space = true ∧ card_size % 2 = 1 ∧
          (c < a ∨ (a = c ∧ c < b))) := by
        rintro ⟨_, _, h | ⟨h1, h2⟩⟩
        · exact hno_big h
        · subst h1
          omega
      rw [if_neg hnotc]
      dsimp only
      rw [if_neg hnotafter,
        show a * card_size + b - 0 = p by omega, if_pos (by omega)]
    · -- at or after the skipped center cell: positions shift by one
      have hplen : p < card_size * card_size - 1 := by
        rw [hlen, if_pos hfo.1] at hp
        omega
      obtain ⟨a, b, hab, hb⟩ : ∃ a b, a * card_size + b = p + 1 ∧
          b < card_size :=
        ⟨(p + 1) / card_size, (p + 1) % card_size,
          by rw [Nat.mul_comm]; exact Nat.div_add_mod (p + 1) card_size,
          Nat.mod_lt _ (by omega)⟩
      have hacs : a * card_size < card_size * card_size := by omega
      have ha : a < card_size := Nat.lt_of_mul_lt_mul_right hacs
      refine ⟨a, b, ha, hb, ?_⟩
      rw [place_songs_on_card_cell _ _ _ _ _ ha hb, hcdiv]
      have hnotsmall : ¬ a < c := by
        intro hsmall
        have h1 : (a + 1) * card_size ≤ c * card_size :=
          Nat.mul_le_mul_right card_size (by omega)
        have h2 : (a + 1) * card_size = a * card_size + card_size := by ring
        omega
      have hnotc : ¬(free_space = true ∧ card_size % 2 = 1 ∧ a = c ∧ b = c) := by
        rintro ⟨_, _, h1, h2⟩
        subst h1
        omega
      have hafter : free_space = true ∧ card_size % 2 = 1 ∧
          (c < a ∨ (a = c ∧ c < b)) := by
        refine ⟨hfo.1, hfo.2, ?_⟩
        rcases Nat.lt_trichotomy a c with h | h | h
        · exact absurd h hnotsmall
        · refine Or.inr ⟨h, ?_⟩
          subst h
          omega
        · exact Or.inl h
      rw [if_neg hnotc]
      dsimp only
      rw [if_pos hafter, show a * card_size + b - 1 = p by omega,
        if_pos (by omega)]
  · -- no skipped cell: plain row-major order
    obtain ⟨a, b, hab, hb⟩ : ∃ a b, a * card_size + b = p ∧ b < card_size :=
      ⟨p / card_size, p % card_size,
        by rw [Nat.mul_comm]; exact Nat.div_add_mod p card_size,
        Nat.mod_lt _ (by omega)⟩
    have hacs : a * card_size < card_size * card_size := by omega
    have ha : a < card_size := Nat.lt_of_mul_lt_mul_right hacs
    refine ⟨a, b, ha, hb, ?_⟩
    rw [place_songs_on_card_cell _ _ _ _ _ ha hb]
    have hnotc : ¬(free_space = true ∧ card_size % 2 = 1 ∧
        a = card_size / 2 ∧ b = card_size / 2) := fun h => hfo ⟨h.1, h.2.1⟩
    have hnotafter : ¬(free_space = true ∧ card_size % 2 = 1 ∧
        (card_size / 2 < a ∨ (a = card_size / 2 ∧ card_size / 2 < b))) :=
      fun h => hfo ⟨h.1, h.2.1⟩
    rw [if_neg hnotc]
    dsimp only
    rw [if_neg hnotafter, show a * card_size + b - 0 = p by omega,
      if_pos (by omega)]

/-! ## Called-set helpers -/

theorem contains_eq_false_of_not_mem (l : List String) (s : String)
    (h : s ∉ l) : l.contains s = false := by
  rw [show l.contains s = l.elem s from rfl, List.elem_eq_mem,
    decide_eq_false_iff_not]
  exact h

theorem is_called_free (called : List String) :
    is_called "FREE SPACE" called = true := by
  simp [is_called]

theorem is_called_of_mem (s : String) (called : List String) (h : s ∈ called) :
    is_called s called = true := by
  rw [is_called, show called.contains s = called.elem s from rfl,
    List.elem_eq_mem, decide_eq_true h, Bool.or_true]

theorem is_called_false_of (s : String) (called : List String)
    (hs : s ≠ "FREE SPACE") (hmem : s ∉ called) : is_called s called = false := by
  rw [is_called, contains_eq_false_of_not_mem called s hmem, Bool.or_false,
    beq_eq_false_iff_ne]
  exact hs

theorem check_full_card_eq_false (card : Card) (called : List String)
    (s : String) (row : List String) (hrow : row ∈ card) (hs : s ∈ row)
    (hcall : is_called s called = false) : check_full_card card called = false := by
  rw [check_full_card]
  by_contra h
  rw [Bool.not_eq_false, List.all_eq_true] at h
  have h2 := h row hrow
  rw [List.all_eq_true] at h2
  rw [h2 s hs] at hcall
  cases hcall

theorem check_full_card_eq_true (card : Card) (called : List String)
    (h : ∀ row ∈ card, ∀ s ∈ row, is_called s called = true) :
    check_full_card card called = true := by
  rw [check_full_card, List.all_eq_true]
  intro row hrow
  rw [List.all_eq_true]
  exact h row hrow

theorem mem_take_of_mem_take_le {l : List String} {m n : Nat} (h : m ≤ n)
    {x : String} (hx : x ∈ l.take m) : x ∈ l.take n := by
  rw [List.mem_take_iff_getElem] at hx ⊢
  obtain ⟨i, hi, hget⟩ := hx
  exact ⟨i, by omega, hget⟩

/-- In a duplicate-free list, the element at index `n` does not occur in
any prefix of length at most `n`. -/
theorem getElem_not_mem_take_of_nodup (l : List String) (hnodup : l.Nodup)
    (n k : Nat) (hn : n < l.length) (hk : k ≤ n) : l[n] ∉ l.take k := by
  intro hmem
  rw [List.mem_take_iff_getElem] at hmem
  obtain ⟨i, hi, heq⟩ := hmem
  have := (hnodup.getElem_inj_iff).mp heq
  omega

/-! ## Card A — blackout at exactly round R (`create_card_A_blackout`) -/

/-- The random outcomes consumed by one attempt of
`create_card_A_blackout`: the `random.sample(EARLYR, S-1)` result and the
`random.shuffle` result. -/
structure ARandom where
  sample : List String
  shuffle : List String → List String

/-- The padding loop of `create_card_A_blackout` (app.py lines 255-260):
`while len(selected_songs) < S: selected_songs.append(EARLYR[len(selected_songs) % len(EARLYR)])`.
(Python would raise `ZeroDivisionError` on an empty `EARLYR`; the
embedding returns the element via `getD`, but the branch is dead under
the theorems' hypotheses, which force the sampling branch.) -/
def pad_A (S : Nat) (EARLYR : List String) (selected : List String) :
    List String :=
  if h : selected.length < S then
    pad_A S EARLYR (selected ++ [EARLYR.getD (selected.length % EARLYR.length) ""])
  else selected
termination_by S - selected.length
decreasing_by simp [List.length_append]; omega

/-- One attempt of `create_card_A_blackout` (app.py lines 253-269):
`S = N²−1` with free space else `N²`; `AT_R = songs[R-1]`;
`EARLYR = songs[:R-1]`; the selected songs are `[AT_R]` plus an `S−1`
sample of `EARLYR` (or the padded list when `EARLYR` is too small),
shuffled and placed on the grid. -/
def create_card_A_attempt (songs : List String) (card_size R : Nat)
    (free_space : Bool) (rnd : ARandom) : Card :=
  let S := if free_space = true then card_size * card_size - 1
    else card_size * card_size
  let AT_R := songs.getD (R - 1) ""
  let EARLYR := songs.take (R - 1)
  let selected_songs :=
    if EARLYR.length < S - 1 then pad_A S EARLYR (AT_R :: EARLYR)
    else AT_R :: rnd.sample
  place_songs_on_card (rnd.shuffle selected_songs) card_size free_space

/-- The retry loop of `create_card_A_blackout` (app.py lines 253-285):
build a candidate per attempt; accept it when its milestones satisfy
`full == R`, `one_line` absent or `> int(0.5*R)`, and `two_lines` absent
or `> int(0.7*R)`; when the budget is exhausted return the last
candidate.  (`int(R * 0.5)` equals `R / 2` exactly; `int(R * 0.7)` is a
floating-point computation modelled as `7 * R / 10` — a possible
off-by-one there only changes which candidate is returned, and the
theorems hold for every candidate.) -/
def create_card_A_loop (songs : List String) (card_size R : Nat)
    (free_space : Bool) : List ARandom → Card
  | [] => []
  | [rnd] => create_card_A_attempt songs card_size R free_space rnd
  | rnd :: rnd2 :: rest =>
    let card := create_card_A_attempt songs card_size R free_space rnd
    let m := get_card_milestones card songs
    if m.full_card = some R ∧
        (m.one_line = none ∨ R / 2 < m.one_line.getD 0) ∧
        (m.two_lines = none ∨ 7 * R / 10 < m.two_lines.getD 0) then card
    else create_card_A_loop songs card_size R free_space (rnd2 :: rest)

/-- Embedding of `create_card_A_blackout(songs, card_size, R, free_space,
max_attempts)` (app.py lines 235-285), the list of oracle outcomes
standing for the `max_attempts` iterations. -/
def create_card_A_blackout (songs : List String) (card_size R : Nat)
    (free_space : Bool) (attempts : List ARandom) : Card :=
  create_card_A_loop songs card_size R free_space attempts

/-- Whatever the acceptance test does, the retry loop returns one of the
candidate cards. -/
theorem create_card_A_loop_mem (songs : List String) (card_size R : Nat)
    (free_space : Bool) :
    ∀ attempts : List ARandom, attempts ≠ [] →
      ∃ rnd ∈ attempts,
        create_card_A_loop songs card_size R free_space attempts =
          create_card_A_attempt songs card_size R free_space rnd
  | [], h => absurd rfl h
  | [rnd], _ => ⟨rnd, List.mem_cons_self rnd [], rfl⟩
  | rnd :: rnd2 :: rest, _ => by
    rw [create_card_A_loop]
    split
    · exact ⟨rnd, List.mem_cons_self _ _, rfl⟩
    · obtain ⟨r, hr, heq⟩ := create_card_A_loop_mem songs card_size R
        free_space (rnd2 :: rest) (by simp)
      exact ⟨r, List.mem_cons_of_mem _ hr, heq⟩

/-- Every candidate card of `create_card_A_blackout` satisfies the C3
properties: song cells are `AT_R` plus songs called before round `R`,
`AT_R` is on the card, the card is not full at any round `< R`, is full
at round `R`, and its full-card milestone is exactly `R`. -/
theorem create_card_A_attempt_spec (songs : List String) (card_size R : Nat)
    (free_space : Bool) (rnd : ARandom)
    (hN : 2 ≤ card_size) (hnodup : songs.Nodup)
    (hfree : "FREE SPACE" ∉ songs)
    (hR1 : 1 ≤ R) (hRM : R ≤ songs.length)
    (hRS : (if free_space = true ∧ card_size % 2 = 1 then
      card_size * card_size - 1 else card_size * card_size) ≤ R)
    (hsamplen : rnd.sample.length =
      (if free_space = true then card_size * card_size - 1
        else card_size * card_size) - 1)
    (hsample : ∀ s ∈ rnd.sample, s ∈ songs.take (R - 1))
    (hshuffle : ∀ l, (rnd.shuffle l).Perm l) :
    (∀ row ∈ create_card_A_attempt songs card_size R free_space rnd,
      ∀ s ∈ row, s = "FREE SPACE" ∨ s = songs.getD (R - 1) "" ∨
        s ∈ songs.take (R - 1)) ∧
    (∃ row ∈ create_card_A_attempt songs card_size R free_space rnd,
      songs.getD (R - 1) "" ∈ row) ∧
    (∀ k, k < R → check_full_card
      (create_card_A_attempt songs card_size R free_space rnd)
      (songs.take k) = false) ∧
    check_full_card (create_card_A_attempt songs card_size R free_space rnd)
      (songs.take R) = true ∧
    (get_card_milestones (create_card_A_attempt songs card_size R free_space rnd)
      songs).full_card = some R := by
  have h4 : 2 * 2 ≤ card_size * card_size := Nat.mul_le_mul hN hN
  have hScode : (if free_space = true then card_size * card_size - 1
      else card_size * card_size) ≤ R := by
    by_cases hf : free_space = true
    · rw [if_pos hf]
      by_cases ho : card_size % 2 = 1
      · rw [if_pos ⟨hf, ho⟩] at hRS
        exact hRS
      · rw [if_neg (fun h => ho h.2)] at hRS
        omega
    · rw [if_neg hf]
      rw [if_neg (fun h => hf h.1)] at hRS
      exact hRS
  have hEARLYlen : (songs.take (R - 1)).length = R - 1 := by
    rw [List.length_take]
    omega
  have hcond : ¬ ((songs.take (R - 1)).length <
      (if free_space = true then card_size * card_size - 1
        else card_size * card_size) - 1) := by
    rw [hEARLYlen]
    omega
  have hcard : create_card_A_attempt songs card_size R free_space rnd =
      place_songs_on_card
        (rnd.shuffle (songs.getD (R - 1) "" :: rnd.sample)) card_size
        free_space := by
    simp only [create_card_A_attempt]
    rw [if_neg hcond]
  set AT_R := songs.getD (R - 1) "" with hATdef
  set sel := rnd.shuffle (AT_R :: rnd.sample) with hseldef
  have hperm : sel.Perm (AT_R :: rnd.sample) := hshuffle _
  have hsellen : sel.length = (if free_space = true then
      card_size * card_size - 1 else card_size * card_size) := by
    rw [hperm.length_eq, List.length_cons, hsamplen]
    split <;> omega
  have hselne : sel ≠ [] := by
    intro h
    rw [h] at hsellen
    simp at hsellen
    split at hsellen <;> omega
  have hRlt : R - 1 < songs.length := by omega
  have hATel : AT_R = songs[R - 1] := List.getD_eq_getElem songs "" hRlt
  have hATmem : AT_R ∈ songs := hATel ▸ List.getElem_mem hRlt
  have hATfree : AT_R ≠ "FREE SPACE" := fun h => hfree (h ▸ hATmem)
  -- (a) cell membership
  have hcells : ∀ row ∈ create_card_A_attempt songs card_size R free_space rnd,
      ∀ s ∈ row, s = "FREE SPACE" ∨ s = AT_R ∨ s ∈ songs.take (R - 1) := by
    intro row hrow s hs
    rw [hcard] at hrow
    rcases place_songs_on_card_cell_mem sel card_size free_space hselne row
      hrow s hs with h | h
    · exact Or.inl h
    · rw [hperm.mem_iff] at h
      rcases List.mem_cons.mp h with h | h
      · exact Or.inr (Or.inl h)
      · exact Or.inr (Or.inr (hsample s h))
  -- (b) AT_R is on the card
  have hAT_on : ∃ row ∈ create_card_A_attempt songs card_size R free_space rnd,
      AT_R ∈ row := by
    have hmem : AT_R ∈ sel := hperm.mem_iff.mpr (List.mem_cons_self _ _)
    obtain ⟨p, hp, hgetp⟩ := List.mem_iff_getElem.mp hmem
    have hgetDp : sel.getD p "" = AT_R := by
      rw [List.getD_eq_getElem sel "" hp, hgetp]
    obtain ⟨i, j, hi, hj, hcell⟩ := place_songs_on_card_surj sel card_size
      free_space (by omega) hsellen p hp
    rw [hgetDp] at hcell
    have hclen : (place_songs_on_card sel card_size free_space).length =
        card_size := place_songs_on_card_length sel card_size free_space
    have hrowmem : (place_songs_on_card sel card_size free_space).getD i [] ∈
        place_songs_on_card sel card_size free_space :=
      getD_mem_of_lt _ i [] (by omega)
    have hrowlen : ((place_songs_on_card sel card_size free_space).getD i
        []).length = card_size :=
      place_songs_on_card_row_length sel card_size free_space _ hrowmem
    refine ⟨(place_songs_on_card sel card_size free_space).getD i [],
      by rw [hcard]; exact hrowmem, ?_⟩
    rw [← hcell]
    exact getD_mem_of_lt _ j "" (by omega)
  -- (c) not full before round R
  have hnotfull : ∀ k, k < R → check_full_card
      (create_card_A_attempt songs card_size R free_space rnd)
      (songs.take k) = false := by
    intro k hk
    obtain ⟨row, hrow, hATrow⟩ := hAT_on
    refine check_full_card_eq_false _ _ AT_R row hrow hATrow ?_
    refine is_called_false_of AT_R _ hATfree ?_
    rw [hATel]
    exact getElem_not_mem_take_of_nodup songs hnodup (R - 1) k hRlt (by omega)
  -- (d) full at round R
  have hfull : check_full_card
      (create_card_A_attempt songs card_size R free_space rnd)
      (songs.take R) = true := by
    refine check_full_card_eq_true _ _ ?_
    intro row hrow s hs
    rcases hcells row hrow s hs with h | h | h
    · rw [h]
      exact is_called_free _
    · refine is_called_of_mem s _ ?_
      rw [h, hATel]
      rw [List.mem_take_iff_getElem]
      exact ⟨R - 1, by omega, rfl⟩
    · exact is_called_of_mem s _ (mem_take_of_mem_take_le (by omega) h)
  refine ⟨hcells, hAT_on, hnotfull, hfull, ?_⟩
  rw [get_card_milestones_full]
  exact roundsList_find?_eq _ R songs.length hR1 hRM hfull
    (fun k _ hk2 => hnotfull k hk2)

/-- C3: with a duplicate-free playlist, `R ≤ M` and `R ≥ S` (the claim's
`S`: `N²−1` with free space on odd `N`, else `N²`), every card returned
by `create_card_A_blackout` — whichever attempt the retry loop settles
on — has its full-card milestone exactly at round `R`: its song cells
are `AT_R = S[R-1]` plus songs drawn from `S[0..R-2]`, so it is not full
at any round `< R` and becomes full at round `R`. -/
theorem create_card_A_blackout_full_at_R (songs : List String)
    (card_size R : Nat) (free_space : Bool) (attempts : List ARandom)
    (hN : 2 ≤ card_size) (hnodup : songs.Nodup)
    (hfree : "FREE SPACE" ∉ songs)
    (hR1 : 1 ≤ R) (hRM : R ≤ songs.length)
    (hRS : (if free_space = true ∧ card_size % 2 = 1 then
      card_size * card_size - 1 else card_size * card_size) ≤ R)
    (hatt : attempts ≠ [])
    (hsamplen : ∀ rnd ∈ attempts, rnd.sample.length =
      (if free_space = true then card_size * card_size - 1
        else card_size * card_size) - 1)
    (hsample : ∀ rnd ∈ attempts, ∀ s ∈ rnd.sample, s ∈ songs.take (R - 1))
    (hshuffle : ∀ rnd ∈ attempts, ∀ l, (rnd.shuffle l).Perm l) :
    (∀ row ∈ create_card_A_blackout songs card_size R free_space attempts,
      ∀ s ∈ row, s = "FREE SPACE" ∨ s = songs.getD (R - 1) "" ∨
        s ∈ songs.take (R - 1)) ∧
    (∃ row ∈ create_card_A_blackout songs card_size R free_space attempts,
      songs.getD (R - 1) "" ∈ row) ∧
    (∀ k, k < R → check_full_card
      (create_card_A_blackout songs card_size R free_space attempts)
      (songs.take k) = false) ∧
    check_full_card (create_card_A_blackout songs card_size R free_space attempts)
      (songs.take R) = true ∧
    (get_card_milestones
      (create_card_A_blackout songs card_size R free_space attempts)
      songs).full_card = some R := by
  obtain ⟨rnd, hrnd, heq⟩ := create_card_A_loop_mem songs card_size R
    free_space attempts hatt
  rw [create_card_A_blackout, heq]
  exact create_card_A_attempt_spec songs card_size R free_space rnd hN hnodup
    hfree hR1 hRM hRS (hsamplen rnd hrnd) (hsample rnd hrnd) (hshuffle rnd hrnd)

/-- Witness for C3: a 3×3 free-space card over a 9-song playlist with
`R = 8`; the single attempt samples the first seven songs and leaves the
order unchanged. -/
theorem create_card_A_blackout_full_at_R_witness :
    (get_card_milestones
      (create_card_A_blackout ["s1", "s2", "s3", "s4", "s5", "s6", "s7", "s8", "s9"]
        3 8 true [⟨["s1", "s2", "s3", "s4", "s5", "s6", "s7"], fun l => l⟩])
      ["s1", "s2", "s3", "s4", "s5", "s6", "s7", "s8", "s9"]).full_card =
      some 8 :=
  (create_card_A_blackout_full_at_R
    ["s1", "s2", "s3", "s4", "s5", "s6", "s7", "s8", "s9"] 3 8 true
    [⟨["s1", "s2", "s3", "s4", "s5", "s6", "s7"], fun l => l⟩]
    (by decide) (by decide) (by decide) (by decide) (by decide) (by decide)
    (by exact List.cons_ne_nil _ _)
    (by intro rnd hrnd; simp at hrnd; subst hrnd; decide)
    (by intro rnd hrnd; simp at hrnd; subst hrnd; decide)
    (by intro rnd hrnd l; simp at hrnd; subst hrnd;
        exact List.Perm.refl l)).2.2.2.2

/-! ## Mutable grids (`card_grid` of cards B, C and O)

Cards B and C build a `card_grid` of `None`-initialised cells and assign
cells imperatively; the embedding uses a grid of `Option String` with
functional updates. -/

abbrev Grid := List (List (Option String))

/-- Read `card_grid[i][j]` (always in range in the source). -/
def getCellO (g : Grid) (i j : Nat) : Option String :=
  (g.getD i []).getD j none

/-- Write `card_grid[i][j] = v`. -/
def setCell (g : Grid) (i j : Nat) (v : Option String) : Grid :=
  g.set i ((g.getD i []).set j v)

/-- `[[None]*N for _ in range(N)]`. -/
def blankGrid (card_size : Nat) : Grid :=
  (List.range card_size).map
    (fun _ => (List.range card_size).map (fun _ => none))

/-- `[(i, j) for i in range(N) for j in range(N)]`. -/
def allSquares (card_size : Nat) : List (Nat × Nat) :=
  (List.range card_size).flatMap
    (fun i => (List.range card_size).map (fun j => (i, j)))

/-- An N×N grid. -/
def GridWF (g : Grid) (card_size : Nat) : Prop :=
  g.length = card_size ∧ ∀ row ∈ g, row.length = card_size

theorem blankGrid_WF (card_size : Nat) :
    GridWF (blankGrid card_size) card_size := by
  constructor
  · simp [blankGrid]
  · intro row hrow
    simp only [blankGrid, List.mem_map, List.mem_range] at hrow
    obtain ⟨i, _, rfl⟩ := hrow
    simp

theorem getCellO_blank (card_size a b : Nat) :
    getCellO (blankGrid card_size) a b = none := by
  have h : ∀ row ∈ blankGrid card_size, row.getD b none = none := by
    intro row hrow
    simp only [blankGrid, List.mem_map, List.mem_range] at hrow
    obtain ⟨i, _, rfl⟩ := hrow
    rcases Nat.lt_or_ge b card_size with hb | hb
    · rw [List.getD_eq_getElem _ _ (by simpa using hb), List.getElem_map]
    · exact List.getD_eq_default _ _ (by simpa using hb)
  rw [getCellO]
  rcases Nat.lt_or_ge a (blankGrid card_size).length with ha | ha
  · exact h _ (getD_mem_of_lt _ a [] ha)
  · rw [List.getD_eq_default _ _ ha]
    rfl

theorem mem_allSquares (card_size : Nat) (p : Nat × Nat) :
    p ∈ allSquares card_size ↔ p.1 < card_size ∧ p.2 < card_size := by
  cases p with
  | mk a b =>
    simp [allSquares, List.mem_flatMap, List.mem_map, List.mem_range]

theorem setCell_WF (g : Grid) (card_size : Nat) (h : GridWF g card_size)
    (i j : Nat) (hi : i < card_size) (v : Option String) :
    GridWF (setCell g i j v) card_size := by
  obtain ⟨hlen, hrows⟩ := h
  refine ⟨by simp [setCell, hlen], ?_⟩
  intro row hrow
  rw [setCell] at hrow
  rcases List.mem_or_eq_of_mem_set hrow with h | h
  · exact hrows row h
  · rw [h, List.length_set]
    exact hrows _ (getD_mem_of_lt g i [] (by omega))

theorem getCellO_setCell (g : Grid) (card_size : Nat)
    (hwf : GridWF g card_size) (i j : Nat) (hi : i < card_size)
    (hj : j < card_size) (v : Option String) (a b : Nat) :
    getCellO (setCell g i j v) a b =
      if a = i ∧ b = j then v else getCellO g a b := by
  obtain ⟨hlen, hrows⟩ := hwf
  have higl : i < g.length := by omega
  have hrowlen : (g.getD i []).length = card_size :=
    hrows _ (getD_mem_of_lt g i [] higl)
  by_cases ha : a = i
  · subst ha
    have h1 : (setCell g a j v).getD a [] = (g.getD a []).set j v := by
      rw [setCell, List.getD_eq_getElem _ _ (by simp; omega),
        List.getElem_set_self]
    rw [getCellO, h1]
    by_cases hb : b = j
    · subst hb
      rw [if_pos ⟨rfl, rfl⟩,
        List.getD_eq_getElem _ _ (by rw [List.length_set, hrowlen]; exact hj),
        List.getElem_set_self]
    · rw [if_neg (fun hc => hb hc.2)]
      show ((g.getD a []).set j v).getD b none = getCellO g a b
      rw [getCellO, List.getD_eq_getElem?_getD, List.getD_eq_getElem?_getD,
        List.getElem?_set_ne (fun hc => hb hc.symm)]
      exact (List.getD_eq_getElem?_getD _ _ _).symm
  · rw [if_neg (fun hc => ha hc.1)]
    show ((setCell g i j v).getD a []).getD b none = getCellO g a b
    have h2 : (setCell g i j v).getD a [] = g.getD a [] := by
      rw [setCell, List.getD_eq_getElem?_getD, List.getD_eq_getElem?_getD,
        List.getElem?_set_ne (fun hc => ha hc.symm)]
      exact (List.getD_eq_getElem?_getD _ _ _).symm
    rw [h2]
    rfl

/-- A sequence of cell writes (positions paired with the written
songs). -/
def placeList (g : Grid) (ps : List ((Nat × Nat) × String)) : Grid :=
  ps.foldl (fun g p => setCell g p.1.1 p.1.2 (some p.2)) g

theorem placeList_cons (g : Grid) (p : (Nat × Nat) × String)
    (ps : List ((Nat × Nat) × String)) :
    placeList g (p :: ps) = placeList (setCell g p.1.1 p.1.2 (some p.2)) ps :=
  rfl

theorem placeList_WF (card_size : Nat) :
    ∀ (ps : List ((Nat × Nat) × String)) (g : Grid), GridWF g card_size →
      (∀ p ∈ ps, p.1.1 < card_size ∧ p.1.2 < card_size) →
      GridWF (placeList g ps) card_size := by
  intro ps
  induction ps with
  | nil => intro g h _; exact h
  | cons p ps ih =>
    intro g h hb
    rw [placeList_cons]
    exact ih _ (setCell_WF g card_size h p.1.1 p.1.2
        (hb p (List.mem_cons_self p ps)).1 (some p.2))
      (fun q hq => hb q (List.mem_cons_of_mem _ hq))

/-- Cells after a write sequence: unchanged, or one of the written
songs. -/
theorem placeList_cell_cases (card_size : Nat) :
    ∀ (ps : List ((Nat × Nat) × String)) (g : Grid), GridWF g card_size →
      (∀ p ∈ ps, p.1.1 < card_size ∧ p.1.2 < card_size) →
      ∀ a b, getCellO (placeList g ps) a b = getCellO g a b ∨
        ∃ p ∈ ps, getCellO (placeList g ps) a b = some p.2 := by
  intro ps
  induction ps with
  | nil => intro g _ _ a b; exact Or.inl rfl
  | cons p ps ih =>
    intro g hwf hb a b
    have hp := hb p (List.mem_cons_self p ps)
    have hwf' := setCell_WF g card_size hwf p.1.1 p.1.2 hp.1 (some p.2)
    rw [placeList_cons]
    rcases ih _ hwf' (fun q hq => hb q (List.mem_cons_of_mem _ hq)) a b with
      h | ⟨q, hq, hval⟩
    · rw [h, getCellO_setCell g card_size hwf p.1.1 p.1.2 hp.1 hp.2]
      split
      · exact Or.inr ⟨p, List.mem_cons_self p ps, rfl⟩
      · exact Or.inl rfl
    · exact Or.inr ⟨q, List.mem_cons_of_mem _ hq, hval⟩

/-- Positions not written keep their cell. -/
theorem placeList_cell_untouched (card_size : Nat) :
    ∀ (ps : List ((Nat × Nat) × String)) (g : Grid), GridWF g card_size →
      (∀ p ∈ ps, p.1.1 < card_size ∧ p.1.2 < card_size) →
      ∀ a b, (a, b) ∉ ps.map Prod.fst →
        getCellO (placeList g ps) a b = getCellO g a b := by
  intro ps
  induction ps with
  | nil => intro g _ _ a b _; rfl
  | cons p ps ih =>
    intro g hwf hb a b hab
    have hp := hb p (List.mem_cons_self p ps)
    have hwf' := setCell_WF g card_size hwf p.1.1 p.1.2 hp.1 (some p.2)
    rw [placeList_cons]
    rw [ih _ hwf' (fun q hq => hb q (List.mem_cons_of_mem _ hq)) a b
      (fun hc => hab (by simp at hc ⊢; exact Or.inr hc))]
    rw [getCellO_setCell g card_size hwf p.1.1 p.1.2 hp.1 hp.2]
    rw [if_neg]
    rintro ⟨rfl, rfl⟩
    exact hab (by simp)

/-- A set cell stays set across a write sequence. -/
theorem placeList_isSome_preserve (card_size : Nat) :
    ∀ (ps : List ((Nat × Nat) × String)) (g : Grid), GridWF g card_size →
      (∀ p ∈ ps, p.1.1 < card_size ∧ p.1.2 < card_size) →
      ∀ a b, (getCellO g a b).isSome = true →
        (getCellO (placeList g ps) a b).isSome = true := by
  intro ps
  induction ps with
  | nil => intro g _ _ a b h; exact h
  | cons p ps ih =>
    intro g hwf hb a b h
    have hp := hb p (List.mem_cons_self p ps)
    have hwf' := setCell_WF g card_size hwf p.1.1 p.1.2 hp.1 (some p.2)
    rw [placeList_cons]
    refine ih _ hwf' (fun q hq => hb q (List.mem_cons_of_mem _ hq)) a b ?_
    rw [getCellO_setCell g card_size hwf p.1.1 p.1.2 hp.1 hp.2]
    split
    · rfl
    · exact h

/-- A written position is set afterwards. -/
theorem placeList_isSome_of_mem (card_size : Nat) :
    ∀ (ps : List ((Nat × Nat) × String)) (g : Grid), GridWF g card_size →
      (∀ p ∈ ps, p.1.1 < card_size ∧ p.1.2 < card_size) →
      ∀ a b, (a, b) ∈ ps.map Prod.fst →
        (getCellO (placeList g ps) a b).isSome = true := by
  intro ps
  induction ps with
  | nil => intro g _ _ a b h; simp at h
  | cons p ps ih =>
    intro g hwf hb a b hab
    have hp := hb p (List.mem_cons_self p ps)
    have hwf' := setCell_WF g card_size hwf p.1.1 p.1.2 hp.1 (some p.2)
    rw [placeList_cons]
    rcases (by simpa using hab :
        (a, b) = p.1 ∨ ∃ x, ((a, b), x) ∈ ps) with h | ⟨x, hx⟩
    · refine placeList_isSome_preserve card_size ps _ hwf'
        (fun q hq => hb q (List.mem_cons_of_mem _ hq)) a b ?_
      obtain ⟨ha2, hb2⟩ : a = p.1.1 ∧ b = p.1.2 := by
        rw [Prod.ext_iff] at h
        exact ⟨h.1, h.2⟩
      rw [getCellO_setCell g card_size hwf p.1.1 p.1.2 hp.1 hp.2,
        if_pos ⟨ha2, hb2⟩]
      rfl
    · exact ih _ hwf' (fun q hq => hb q (List.mem_cons_of_mem _ hq)) a b
        (List.mem_map.mpr ⟨((a, b), x), hx, rfl⟩)

/-! ## Card B — one line at r₁ with an anti-blackout blocker
(`create_card_B_one_line`, app.py lines 287-378)

The stages of the source function are transcribed as named definitions
(`b*`), combined in `create_card_B_one_line`. -/

/-- The random outcomes consumed by `create_card_B_one_line`: the
center-row sample, the `random.choice` indices of the pad loop, the two
shuffles, the blocker and blocker-position choices, and the
`random.choice(EARLYR)` indices used when the fill pool runs out. -/
structure BRandom where
  rowSample : List String
  rowPadPick : Nat → Nat
  shuffleRow : List String → List String
  blockerPick : Nat
  posPick : Nat
  shuffleFill : List String → List String
  fillPick : Nat → Nat

/-- `AT_R1 = songs[r1 - 1] if r1 <= len(songs) else songs[-1]`
(app.py line 302). -/
def bAT_R1 (songs : List String) (r1 : Nat) : String :=
  if r1 ≤ songs.length then songs.getD (r1 - 1) "" else songs.getLastD ""

/-- `LATE = songs[R:M] if R < M else []` (app.py line 304). -/
def bLATE (songs : List String) (R M : Nat) : List String :=
  if R < M then (songs.take M).drop R else []

/-- The center-row squares excluding the FREE center (app.py lines
320-324). -/
def bCenterRow (card_size : Nat) (free_space : Bool) : List (Nat × Nat) :=
  (List.range card_size).filterMap
    (fun j => if free_space = true ∧ j = card_size / 2 then none
      else some (card_size / 2, j))

/-- The pad loop filling the center row from `EARLYR` (app.py lines
339-345): while the row is short, choose from the songs of `EARLYR` not
yet used and not on the row; stop when none remain. -/
def b_pad_row (k : Nat) (EARLYR used : List String) (pick : Nat → Nat)
    (row_songs : List String) : List String :=
  if h : row_songs.length < k then
    let available := EARLYR.filter
      (fun s => !(used.contains s) && !(row_songs.contains s))
    if havail : available ≠ [] then
      b_pad_row k EARLYR used pick
        (row_songs ++ [choiceIdx available (pick row_songs.length)])
    else row_songs
  else row_songs
termination_by k - row_songs.length
decreasing_by simp [List.length_append]; omega

/-- The center-row songs before the shuffle (app.py lines 329-345):
`[AT_R1]` extended by a sample of `EARLY1` minus the used songs, or by
the pad loop when `EARLY1` is too small. -/
def bRowSongs0 (songs : List String) (card_size r1 R : Nat)
    (free_space : Bool) (rnd : BRandom) : List String :=
  let AT_R1 := bAT_R1 songs r1
  let EARLY1 := songs.take (r1 - 1)
  let k := (bCenterRow card_size free_space).length
  let available_early1 := EARLY1.filter (fun s => !([AT_R1].contains s))
  if k - 1 ≤ available_early1.length then AT_R1 :: rnd.rowSample
  else b_pad_row k (songs.take R) [AT_R1] rnd.rowPadPick
    (AT_R1 :: available_early1)

/-- The grid with FREE center set (app.py lines 312-317). -/
def bG1 (card_size : Nat) (free_space : Bool) : Grid :=
  if free_space = true then
    setCell (blankGrid card_size) (card_size / 2) (card_size / 2)
      (some "FREE SPACE")
  else blankGrid card_size

/-- The grid after placing the shuffled center-row songs (app.py lines
347-351). -/
def bGrid2 (songs : List String) (card_size r1 R : Nat) (free_space : Bool)
    (rnd : BRandom) : Grid :=
  placeList (bG1 card_size free_space)
    ((bCenterRow card_size free_space).zip
      (rnd.shuffleRow (bRowSongs0 songs card_size r1 R free_space rnd)))

/-- `blocker = random.choice(LATE)` (app.py line 354). -/
def bBlocker (songs : List String) (R M : Nat) (rnd : BRandom) : String :=
  choiceIdx (bLATE songs R M) rnd.blockerPick

/-- The empty squares off the center row (app.py lines 358-359). -/
def bOffRow (songs : List String) (card_size r1 R : Nat) (free_space : Bool)
    (rnd : BRandom) : List (Nat × Nat) :=
  (allSquares card_size).filter
    (fun p => p.1 != card_size / 2 &&
      (getCellO (bGrid2 songs card_size r1 R free_space rnd) p.1 p.2).isNone)

/-- The blocker's cell (app.py line 361). -/
def bPos (songs : List String) (card_size r1 R : Nat) (free_space : Bool)
    (rnd : BRandom) : Nat × Nat :=
  (bOffRow songs card_size r1 R free_space rnd).getD
    (rnd.posPick % (bOffRow songs card_size r1 R free_space rnd).length) (0, 0)

/-- The grid after placing the blocker (app.py lines 360-362). -/
def bGrid3 (songs : List String) (card_size r1 R M : Nat) (free_space : Bool)
    (rnd : BRandom) : Grid :=
  if bOffRow songs card_size r1 R free_space rnd ≠ [] then
    setCell (bGrid2 songs card_size r1 R free_space rnd)
      (bPos songs card_size r1 R free_space rnd).1
      (bPos songs card_size r1 R free_space rnd).2
      (some (bBlocker songs R M rnd))
  else bGrid2 songs card_size r1 R free_space rnd

/-- The remaining empty squares (app.py lines 365-366). -/
def bEmpty (songs : List String) (card_size r1 R M : Nat) (free_space : Bool)
    (rnd : BRandom) : List (Nat × Nat) :=
  (allSquares card_size).filter
    (fun p => (getCellO (bGrid3 songs card_size r1 R M free_space rnd)
      p.1 p.2).isNone)

/-- The grid after the final fill from `EARLYR` (app.py lines 364-376):
the shuffled unused songs of `EARLYR` by position, falling back to
`random.choice(EARLYR)` when they run out. -/
def bGrid4 (songs : List String) (card_size r1 R M : Nat) (free_space : Bool)
    (rnd : BRandom) : Grid :=
  let used_songs := bBlocker songs R M rnd ::
    bRowSongs0 songs card_size r1 R free_space rnd
  let available_songs := rnd.shuffleFill
    ((songs.take R).filter (fun s => !(used_songs.contains s)))
  placeList (bGrid3 songs card_size r1 R M free_space rnd)
    ((bEmpty songs card_size r1 R M free_space rnd).enum.map (fun p =>
      (p.2, if p.1 < available_songs.length then available_songs.getD p.1 ""
        else choiceIdx (songs.take R) (rnd.fillPick p.1))))

/-- Embedding of `create_card_B_one_line(songs, card_size, r1, R, M,
free_space)` (app.py lines 287-378): raise when `LATE` is empty,
otherwise build the grid and return it. -/
def create_card_B_one_line (songs : List String) (card_size r1 R M : Nat)
    (free_space : Bool) (rnd : BRandom) : Except String Card :=
  if bLATE songs R M = [] then
    .error ("Need blocker songs: R=" ++ toString R ++ " must be < M=" ++
      toString M)
  else
    .ok ((bGrid4 songs card_size r1 R M free_space rnd).map
      (fun row => row.map (fun c => c.getD "")))

/-- Songs appended by the pad loop come from `EARLYR`. -/
theorem b_pad_row_subset (k : Nat) (EARLYR used : List String)
    (pick : Nat → Nat) (row_songs : List String) (s : String)
    (h : s ∈ b_pad_row k EARLYR used pick row_songs) :
    s ∈ row_songs ∨ s ∈ EARLYR := by
  rw [b_pad_row] at h
  split at h
  · dsimp only at h
    split at h
    · next havail =>
      rcases b_pad_row_subset k EARLYR used pick _ s h with h2 | h2
      · rcases List.mem_append.mp h2 with h3 | h3
        · exact Or.inl h3
        · have h4 : s = choiceIdx (EARLYR.filter
              (fun s => !(used.contains s) && !(row_songs.contains s)))
              (pick row_songs.length) := by simpa using h3
          refine Or.inr ?_
          rw [h4]
          exact List.mem_of_mem_filter (choiceIdx_mem _ _ havail)
      · exact Or.inr h2
    · exact Or.inl h
  · exact Or.inl h
termination_by k - row_songs.length
decreasing_by simp [List.length_append]; omega

/-- Center-row squares sit on the center row, within bounds. -/
theorem bCenterRow_mem (card_size : Nat) (free_space : Bool) (q : Nat × Nat)
    (hq : q ∈ bCenterRow card_size free_space) :
    q.1 = card_size / 2 ∧ q.2 < card_size := by
  rw [bCenterRow, List.mem_filterMap] at hq
  obtain ⟨j, hj, hval⟩ := hq
  rw [List.mem_range] at hj
  split at hval
  · cases hval
  · have hq2 := Option.some.inj hval
    rw [← hq2]
    exact ⟨rfl, hj⟩

/-- The center-row songs all come from `songs[:R]`. -/
theorem bRowSongs0_subset (songs : List String) (card_size r1 R : Nat)
    (free_space : Bool) (rnd : BRandom) (hr1 : 1 ≤ r1) (hr1R : r1 < R)
    (hRlen : R < songs.length)
    (hRowSample : ∀ s ∈ rnd.rowSample, s ∈ songs.take (r1 - 1)) :
    ∀ s ∈ bRowSongs0 songs card_size r1 R free_space rnd, s ∈ songs.take R := by
  intro s hs
  have hAT : bAT_R1 songs r1 ∈ songs.take R := by
    rw [bAT_R1, if_pos (by omega), List.getD_eq_getElem _ _ (by omega),
      List.mem_take_iff_getElem]
    exact ⟨r1 - 1, by omega, rfl⟩
  rw [bRowSongs0] at hs
  split at hs
  · rcases List.mem_cons.mp hs with rfl | h
    · exact hAT
    · exact mem_take_of_mem_take_le (by omega) (hRowSample s h)
  · rcases b_pad_row_subset _ _ _ _ _ s hs with h | h
    · rcases List.mem_cons.mp h with rfl | h2
      · exact hAT
      · exact mem_take_of_mem_take_le (show r1 - 1 ≤ R by omega)
          (List.mem_of_mem_filter h2)
    · exact h

/-- Reading a cell of the string card obtained from a grid. -/
theorem card_of_grid_cell (g : Grid) (card_size : Nat)
    (hwf : GridWF g card_size) (a b : Nat) (ha : a < card_size)
    (hb : b < card_size) :
    ((g.map (fun row => row.map (fun c => c.getD ""))).getD a []).getD b "" =
      (getCellO g a b).getD "" := by
  obtain ⟨hlen, hrows⟩ := hwf
  have hrow : (g.map (fun row => row.map (fun c => c.getD ""))).getD a [] =
      (g.getD a []).map (fun c => c.getD "") := by
    rw [List.getD_eq_getElem _ _ (by simp only [List.length_map]; omega),
      List.getElem_map, List.getD_eq_getElem _ _ (by omega)]
  rw [hrow]
  have hrl : (g.getD a []).length = card_size :=
    hrows _ (getD_mem_of_lt g a [] (by omega))
  rw [List.getD_eq_getElem _ _ (by simp only [List.length_map]; omega),
    List.getElem_map, getCellO]
  have hR : (List.getD g a []).getD b none = (List.getD g a [])[b] :=
    List.getD_eq_getElem _ _ (by omega)
  rw [hR]

/-- C4: for `3 ≤ N ≤ 7`, a duplicate-free playlist of length `M`, and
targets with `r1 < R < M`, every card returned by
`create_card_B_one_line` contains exactly one song from
`LATE = S[R..M-1]`, placed on a cell off the center row; consequently
the card is never a full card at any round `≤ R`, and its full-card
milestone is strictly greater than `R`. -/
theorem create_card_B_one_line_spec (songs : List String)
    (card_size r1 R M : Nat) (free_space : Bool) (rnd : BRandom)
    (hN3 : 3 ≤ card_size) (hN7 : card_size ≤ 7)
    (hnodup : songs.Nodup) (hfree : "FREE SPACE" ∉ songs)
    (hr1 : 1 ≤ r1) (hr1R : r1 < R) (hRM : R < M) (hM : M = songs.length)
    (hRowSample : ∀ s ∈ rnd.rowSample, s ∈ songs.take (r1 - 1))
    (hShuffleRow : ∀ l, (rnd.shuffleRow l).Perm l)
    (hShuffleFill : ∀ l, (rnd.shuffleFill l).Perm l) :
    ∃ card, create_card_B_one_line songs card_size r1 R M free_space rnd =
        Except.ok card ∧
      card.length = card_size ∧
      (∀ row ∈ card, row.length = card_size) ∧
      (∃ i j, i < card_size ∧ j < card_size ∧ i ≠ card_size / 2 ∧
        (card.getD i []).getD j "" ∈ songs.drop R ∧
        (∀ a b, a < card_size → b < card_size →
          (card.getD a []).getD b "" ∈ songs.drop R → a = i ∧ b = j)) ∧
      (∀ k, k ≤ R → check_full_card card (songs.take k) = false) ∧
      (∀ v, (get_card_milestones card songs).full_card = some v → R < v) := by
  have hRlen : R < songs.length := by omega
  have hc1 : 1 ≤ card_size / 2 := by omega
  have hcN : card_size / 2 < card_size := by omega
  have hLATEeq : bLATE songs R M = songs.drop R := by
    rw [bLATE, if_pos hRM, hM, List.take_length]
  have hLATEne : bLATE songs R M ≠ [] := by
    rw [hLATEeq, Ne, List.drop_eq_nil_iff]
    omega
  have htakeRlen : (songs.take R).length = R := by
    rw [List.length_take]
    omega
  have htakeRne : songs.take R ≠ [] := by
    intro h
    rw [h] at htakeRlen
    simp at htakeRlen
    omega
  -- stage g1
  have h1wf : GridWF (bG1 card_size free_space) card_size := by
    rw [bG1]
    split
    · exact setCell_WF _ _ (blankGrid_WF _) _ _ hcN _
    · exact blankGrid_WF _
  have h1cell : ∀ a b, getCellO (bG1 card_size free_space) a b = none ∨
      getCellO (bG1 card_size free_space) a b = some "FREE SPACE" := by
    intro a b
    rw [bG1]
    split
    · rw [getCellO_setCell _ _ (blankGrid_WF _) _ _ hcN hcN]
      split
      · exact Or.inr rfl
      · exact Or.inl (getCellO_blank _ _ _)
    · exact Or.inl (getCellO_blank _ _ _)
  have h1cell00 : getCellO (bG1 card_size free_space) 0 0 = none := by
    rw [bG1]
    split
    · rw [getCellO_setCell _ _ (blankGrid_WF _) _ _ hcN hcN,
        if_neg (by rintro ⟨h, _⟩; omega)]
      exact getCellO_blank _ _ _
    · exact getCellO_blank _ _ _
  -- stage g2
  have hrowsub : ∀ s ∈ rnd.shuffleRow
      (bRowSongs0 songs card_size r1 R free_space rnd), s ∈ songs.take R :=
    fun s hs => bRowSongs0_subset songs card_size r1 R free_space rnd hr1
      hr1R hRlen hRowSample s ((hShuffleRow _).mem_iff.mp hs)
  have hzipb : ∀ p ∈ (bCenterRow card_size free_space).zip
      (rnd.shuffleRow (bRowSongs0 songs card_size r1 R free_space rnd)),
      p.1.1 < card_size ∧ p.1.2 < card_size := by
    intro p hp
    cases p with
    | mk q s =>
      obtain ⟨hq, _⟩ := List.of_mem_zip hp
      have h2 := bCenterRow_mem card_size free_space q hq
      exact ⟨show q.1 < card_size by omega, show q.2 < card_size from h2.2⟩
  have h2wf : GridWF (bGrid2 songs card_size r1 R free_space rnd) card_size :=
    placeList_WF card_size _ _ h1wf hzipb
  have h2cases : ∀ a b,
      getCellO (bGrid2 songs card_size r1 R free_space rnd) a b = none ∨
      getCellO (bGrid2 songs card_size r1 R free_space rnd) a b =
        some "FREE SPACE" ∨
      ∃ s ∈ songs.take R,
        getCellO (bGrid2 songs card_size r1 R free_space rnd) a b = some s := by
    intro a b
    rcases placeList_cell_cases card_size _ _ h1wf hzipb a b with h | ⟨p, hp, hv⟩
    · rw [bGrid2, h]
      rcases h1cell a b with h2 | h2
      · exact Or.inl h2
      · exact Or.inr (Or.inl h2)
    · refine Or.inr (Or.inr ⟨p.2, ?_, by rw [bGrid2]; exact hv⟩)
      exact hrowsub p.2 (List.of_mem_zip (by
        show (p.1, p.2) ∈ _
        rw [Prod.mk.eta]
        exact hp)).2
  -- the blocker and its cell
  have hblockmem : bBlocker songs R M rnd ∈ songs.drop R := by
    rw [← hLATEeq]
    exact choiceIdx_mem (bLATE songs R M) rnd.blockerPick hLATEne
  have hblocksongs : bBlocker songs R M rnd ∈ songs :=
    List.drop_subset _ _ hblockmem
  have hblockfree : bBlocker songs R M rnd ≠ "FREE SPACE" :=
    fun h => hfree (h ▸ hblocksongs)
  have hdisj := List.disjoint_take_drop (l := songs) hnodup (Nat.le_refl R)
  have hblocknotake : ∀ k, k ≤ R → bBlocker songs R M rnd ∉ songs.take k :=
    fun k hk hmem => hdisj (mem_take_of_mem_take_le hk hmem) hblockmem
  have h00mem : ((0, 0) : Nat × Nat) ∈ bOffRow songs card_size r1 R free_space rnd := by
    rw [bOffRow, List.mem_filter]
    constructor
    · rw [mem_allSquares]
      constructor <;> omega
    · rw [Bool.and_eq_true]
      constructor
      · rw [bne_iff_ne]
        omega
      · rw [Option.isNone_iff_eq_none]
        have huntouched : ((0 : Nat), (0 : Nat)) ∉
            ((bCenterRow card_size free_space).zip
              (rnd.shuffleRow (bRowSongs0 songs card_size r1 R free_space
                rnd))).map Prod.fst := by
          intro hmem
          obtain ⟨pr, hpr, hfst⟩ := List.mem_map.mp hmem
          have hq := bCenterRow_mem card_size free_space pr.1
            (List.of_mem_zip (by
              show (pr.1, pr.2) ∈ _
              rw [Prod.mk.eta]
              exact hpr)).1
          rw [hfst] at hq
          simp at hq
          omega
        rw [bGrid2, placeList_cell_untouched card_size _ _ h1wf hzipb 0 0
          huntouched]
        exact h1cell00
  have hoffne : bOffRow songs card_size r1 R free_space rnd ≠ [] :=
    List.ne_nil_of_mem h00mem
  have hposmem : bPos songs card_size r1 R free_space rnd ∈
      bOffRow songs card_size r1 R free_space rnd := by
    rw [bPos]
    exact getD_mem_of_lt _ _ _ (Nat.mod_lt _ (List.length_pos.mpr hoffne))
  have hposfacts := List.mem_filter.mp (by rw [bOffRow] at hposmem; exact hposmem)
  have hposi : (bPos songs card_size r1 R free_space rnd).1 < card_size :=
    ((mem_allSquares _ _).mp hposfacts.1).1
  have hposj : (bPos songs card_size r1 R free_space rnd).2 < card_size :=
    ((mem_allSquares _ _).mp hposfacts.1).2
  have hposnc : (bPos songs card_size r1 R free_space rnd).1 ≠ card_size / 2 := by
    have := hposfacts.2
    rw [Bool.and_eq_true] at this
    exact bne_iff_ne.mp this.1
  have hposg2 : getCellO (bGrid2 songs card_size r1 R free_space rnd)
      (bPos songs card_size r1 R free_space rnd).1
      (bPos songs card_size r1 R free_space rnd).2 = none := by
    have := hposfacts.2
    rw [Bool.and_eq_true] at this
    exact Option.isNone_iff_eq_none.mp this.2
  have h3eq : bGrid3 songs card_size r1 R M free_space rnd =
      setCell (bGrid2 songs card_size r1 R free_space rnd)
        (bPos songs card_size r1 R free_space rnd).1
        (bPos songs card_size r1 R free_space rnd).2
        (some (bBlocker songs R M rnd)) := by
    rw [bGrid3, if_pos hoffne]
  have h3wf : GridWF (bGrid3 songs card_size r1 R M free_space rnd)
      card_size := by
    rw [h3eq]
    exact setCell_WF _ _ h2wf _ _ hposi _
  have h3pos : getCellO (bGrid3 songs card_size r1 R M free_space rnd)
      (bPos songs card_size r1 R free_space rnd).1
      (bPos songs card_size r1 R free_space rnd).2 =
      some (bBlocker songs R M rnd) := by
    rw [h3eq, getCellO_setCell _ _ h2wf _ _ hposi hposj, if_pos ⟨rfl, rfl⟩]
  have h3other : ∀ a b,
      ¬(a = (bPos songs card_size r1 R free_space rnd).1 ∧
        b = (bPos songs card_size r1 R free_space rnd).2) →
      getCellO (bGrid3 songs card_size r1 R M free_space rnd) a b =
        getCellO (bGrid2 songs card_size r1 R free_space rnd) a b := by
    intro a b hab
    rw [h3eq, getCellO_setCell _ _ h2wf _ _ hposi hposj, if_neg hab]
  -- stage g4
  have hemptyb : ∀ p ∈ bEmpty songs card_size r1 R M free_space rnd,
      p.1 < card_size ∧ p.2 < card_size := by
    intro p hp
    rw [bEmpty, List.mem_filter] at hp
    exact (mem_allSquares _ _).mp hp.1
  have hposnotempty : bPos songs card_size r1 R free_space rnd ∉
      bEmpty songs card_size r1 R M free_space rnd := by
    intro hmem
    rw [bEmpty, List.mem_filter] at hmem
    have := hmem.2
    rw [Option.isNone_iff_eq_none, h3pos] at this
    cases this
  refine ⟨_, by rw [create_card_B_one_line, if_neg hLATEne], ?_⟩
  set avail := rnd.shuffleFill ((songs.take R).filter
    (fun s => !((bBlocker songs R M rnd ::
      bRowSongs0 songs card_size r1 R free_space rnd).contains s)))
    with havaildef
  set FP := (bEmpty songs card_size r1 R M free_space rnd).enum.map (fun p =>
    (p.2, if p.1 < avail.length then avail.getD p.1 ""
      else choiceIdx (songs.take R) (rnd.fillPick p.1))) with hFPdef
  have h4eq : bGrid4 songs card_size r1 R M free_space rnd =
      placeList (bGrid3 songs card_size r1 R M free_space rnd) FP := rfl
  have hFPfst : FP.map Prod.fst = bEmpty songs card_size r1 R M free_space rnd := by
    rw [hFPdef, List.map_map]
    exact List.enum_map_snd _
  have hFPb : ∀ q ∈ FP, q.1.1 < card_size ∧ q.1.2 < card_size := by
    intro q hq
    rw [hFPdef] at hq
    obtain ⟨p, hp, rfl⟩ := List.mem_map.mp hq
    refine hemptyb p.2 ?_
    have := List.mem_enum_iff_getElem?.mp hp
    exact List.getElem?_mem this
  have hFPvals : ∀ q ∈ FP, q.2 ∈ songs.take R := by
    intro q hq
    rw [hFPdef] at hq
    obtain ⟨p, _, rfl⟩ := List.mem_map.mp hq
    dsimp only
    split
    · next h =>
      have hmem : avail.getD p.1 "" ∈ avail := getD_mem_of_lt _ _ _ h
      rw [havaildef] at hmem
      have := (hShuffleFill _).mem_iff.mp hmem
      exact List.mem_of_mem_filter this
    · exact choiceIdx_mem _ _ htakeRne
  have h4wf : GridWF (bGrid4 songs card_size r1 R M free_space rnd)
      card_size := by
    rw [h4eq]
    exact placeList_WF card_size _ _ h3wf hFPb
  have h4pos : getCellO (bGrid4 songs card_size r1 R M free_space rnd)
      (bPos songs card_size r1 R free_space rnd).1
      (bPos songs card_size r1 R free_space rnd).2 =
      some (bBlocker songs R M rnd) := by
    rw [h4eq, placeList_cell_untouched card_size _ _ h3wf hFPb _ _ (by
      rw [hFPfst, Prod.mk.eta]
      exact hposnotempty)]
    exact h3pos
  have h4other : ∀ a b,
      ¬(a = (bPos songs card_size r1 R free_space rnd).1 ∧
        b = (bPos songs card_size r1 R free_space rnd).2) →
      getCellO (bGrid4 songs card_size r1 R M free_space rnd) a b = none ∨
      getCellO (bGrid4 songs card_size r1 R M free_space rnd) a b =
        some "FREE SPACE" ∨
      ∃ s ∈ songs.take R,
        getCellO (bGrid4 songs card_size r1 R M free_space rnd) a b =
          some s := by
    intro a b hab
    rw [h4eq]
    rcases placeList_cell_cases card_size FP _ h3wf hFPb a b with h | ⟨q, hq, hv⟩
    · rw [h, h3other a b hab]
      exact h2cases a b
    · exact Or.inr (Or.inr ⟨q.2, hFPvals q hq, hv⟩)
  have h4some : ∀ a b, a < card_size → b < card_size →
      (getCellO (bGrid4 songs card_size r1 R M free_space rnd) a b).isSome =
        true := by
    intro a b ha hb
    rcases hcase : getCellO (bGrid3 songs card_size r1 R M free_space rnd) a b
      with _ | s
    · have hmem : (a, b) ∈ bEmpty songs card_size r1 R M free_space rnd := by
        rw [bEmpty, List.mem_filter, mem_allSquares]
        exact ⟨⟨ha, hb⟩, by rw [Option.isNone_iff_eq_none]; exact hcase⟩
      rw [h4eq]
      exact placeList_isSome_of_mem card_size FP _ h3wf hFPb a b
        (by rw [hFPfst]; exact hmem)
    · rw [h4eq]
      refine placeList_isSome_preserve card_size FP _ h3wf hFPb a b ?_
      rw [hcase]
      rfl
  -- properties of the returned string card
  have hcardlen : ((bGrid4 songs card_size r1 R M free_space rnd).map
      (fun row => row.map (fun c => c.getD ""))).length = card_size := by
    rw [List.length_map]
    exact h4wf.1
  have hcardrows : ∀ row ∈ (bGrid4 songs card_size r1 R M free_space rnd).map
      (fun row => row.map (fun c => c.getD "")), row.length = card_size := by
    intro row hrow
    obtain ⟨r0, hr0, rfl⟩ := List.mem_map.mp hrow
    rw [List.length_map]
    exact h4wf.2 r0 hr0
  have hcell : ∀ a b, a < card_size → b < card_size →
      (((bGrid4 songs card_size r1 R M free_space rnd).map
        (fun row => row.map (fun c => c.getD ""))).getD a []).getD b "" =
      (getCellO (bGrid4 songs card_size r1 R M free_space rnd) a b).getD "" :=
    fun a b ha hb => card_of_grid_cell _ card_size h4wf a b ha hb
  have hblockcell : (((bGrid4 songs card_size r1 R M free_space rnd).map
      (fun row => row.map (fun c => c.getD ""))).getD
        (bPos songs card_size r1 R free_space rnd).1 []).getD
        (bPos songs card_size r1 R free_space rnd).2 "" =
      bBlocker songs R M rnd := by
    rw [hcell _ _ hposi hposj, h4pos]
    rfl
  -- no other cell holds a LATE song
  have huniq : ∀ a b, a < card_size → b < card_size →
      (((bGrid4 songs card_size r1 R M free_space rnd).map
        (fun row => row.map (fun c => c.getD ""))).getD a []).getD b "" ∈
        songs.drop R →
      a = (bPos songs card_size r1 R free_space rnd).1 ∧
        b = (bPos songs card_size r1 R free_space rnd).2 := by
    intro a b ha hb hmem
    by_contra hab
    rcases h4other a b hab with h | h | ⟨s, hsR, h⟩
    · rw [hcell a b ha hb, h] at hmem
      have := h4some a b ha hb
      rw [h] at this
      cases this
    · rw [hcell a b ha hb, h] at hmem
      exact hfree (List.drop_subset _ _ hmem)
    · rw [hcell a b ha hb, h] at hmem
      exact hdisj hsR hmem
  -- the card is never full by round R
  have hnotfull : ∀ k, k ≤ R → check_full_card
      ((bGrid4 songs card_size r1 R M free_space rnd).map
        (fun row => row.map (fun c => c.getD ""))) (songs.take k) = false := by
    intro k hk
    have hrowmem : ((bGrid4 songs card_size r1 R M free_space rnd).map
        (fun row => row.map (fun c => c.getD ""))).getD
        (bPos songs card_size r1 R free_space rnd).1 [] ∈
        (bGrid4 songs card_size r1 R M free_space rnd).map
          (fun row => row.map (fun c => c.getD "")) :=
      getD_mem_of_lt _ _ [] (by rw [hcardlen]; exact hposi)
    have hrowlen : (((bGrid4 songs card_size r1 R M free_space rnd).map
        (fun row => row.map (fun c => c.getD ""))).getD
        (bPos songs card_size r1 R free_space rnd).1 []).length = card_size :=
      hcardrows _ hrowmem
    refine check_full_card_eq_false _ _ (bBlocker songs R M rnd) _ hrowmem ?_ ?_
    · rw [← hblockcell]
      exact getD_mem_of_lt _ _ "" (by omega)
    · exact is_called_false_of _ _ hblockfree (hblocknotake k hk)
  refine ⟨hcardlen, hcardrows,
    ⟨(bPos songs card_size r1 R free_space rnd).1,
      (bPos songs card_size r1 R free_space rnd).2,
      hposi, hposj, hposnc, by rw [hblockcell]; exact hblockmem, huniq⟩,
    hnotfull, ?_⟩
  intro v hv
  rw [get_card_milestones_full] at hv
  have hpred := List.find?_some hv
  by_contra hcon
  have hvR : v ≤ R := by omega
  rw [hnotfull v hvR] at hpred
  cases hpred

/-- Witness for the card-B theorem: a concrete 3×3 card with
`r1 = 3`, `R = 8`, `M = 9` and identity shuffles. -/
theorem create_card_B_one_line_spec_witness :
    ∃ card, create_card_B_one_line
        ["s1", "s2", "s3", "s4", "s5", "s6", "s7", "s8", "s9"] 3 3 8 9 true
        ⟨["s1"], fun _ => 0, fun l => l, 0, 0, fun l => l, fun _ => 0⟩ =
      Except.ok card ∧
      (∃ i j, i < 3 ∧ j < 3 ∧ i ≠ 3 / 2 ∧
        (card.getD i []).getD j "" ∈
          (["s1", "s2", "s3", "s4", "s5", "s6", "s7", "s8", "s9"] :
            List String).drop 8 ∧
        (∀ a b, a < 3 → b < 3 →
          (card.getD a []).getD b "" ∈
            (["s1", "s2", "s3", "s4", "s5", "s6", "s7", "s8", "s9"] :
              List String).drop 8 → a = i ∧ b = j)) ∧
      (∀ k, k ≤ 8 → check_full_card card
        ((["s1", "s2", "s3", "s4", "s5", "s6", "s7", "s8", "s9"] :
          List String).take k) = false) ∧
      (∀ v, (get_card_milestones card
          ["s1", "s2", "s3", "s4", "s5", "s6", "s7", "s8", "s9"]).full_card =
          some v → 8 < v) := by
  obtain ⟨card, hok, _, _, hone, hfull, hmile⟩ :=
    create_card_B_one_line_spec
      ["s1", "s2", "s3", "s4", "s5", "s6", "s7", "s8", "s9"] 3 3 8 9 true
      ⟨["s1"], fun _ => 0, fun l => l, 0, 0, fun l => l, fun _ => 0⟩
      (by decide) (by decide) (by decide) (by decide) (by decide) (by decide)
      (by decide) rfl (by decide)
      (fun l => List.Perm.refl l) (fun l => List.Perm.refl l)
  exact ⟨card, hok, hone, hfull, hmile⟩

/-! ### Card C: 2-line winner with blocker (app.py lines 380-487)

`create_card_C_two_lines(songs, card_size, r2, R, M, free_space)` is
embedded in the same staged style as card B.  The random draws are
supplied by a `CRandom` oracle: `lineSample` stands for
`random.sample(available_early2, needed)`, `linePadPick` indexes the
`random.choice` calls of the pad loop (keyed by the current length),
`shuffleLine` for `random.shuffle(line_songs)`, `blockerPick` and
`posPick` for the blocker draws, `delayPick i` / `colPick i` for the
delay-song and column draws on row `i`, and `shuffleFill` / `fillPick`
for the final fill. -/

structure CRandom where
  lineSample : List String
  linePadPick : Nat → Nat
  shuffleLine : List String → List String
  blockerPick : Nat
  posPick : Nat
  delayPick : Nat → Nat
  colPick : Nat → Nat
  shuffleFill : List String → List String
  fillPick : Nat → Nat

/-- `AT_R2 = songs[r2 - 1] if r2 <= len(songs) else songs[-1]`
(app.py line 396). -/
def cAT_R2 (songs : List String) (r2 : Nat) : String :=
  if r2 ≤ songs.length then songs.getD (r2 - 1) "" else songs.getLastD ""

/-- `DELAY = songs[r2:R] if r2 < R else []` (app.py line 400). -/
def cDELAY (songs : List String) (r2 R : Nat) : List String :=
  if r2 < R then (songs.take R).drop r2 else []

/-- The center-row and center-column squares, sharing the FREE center
(app.py lines 415-423): the center row first (skipping the FREE
center), then the center column without its center square. -/
def cLineSquares (card_size : Nat) (free_space : Bool) : List (Nat × Nat) :=
  bCenterRow card_size free_space ++
    (List.range card_size).filterMap
      (fun i => if i = card_size / 2 then none
        else some (i, card_size / 2))

/-- The pad loop filling the two lines from `EARLYR` (app.py lines
439-445): while short, choose an unused song of `EARLYR`, falling back
to an arbitrary song of `EARLYR` when all are used. -/
def c_pad_line (total : Nat) (EARLYR used : List String)
    (pick : Nat → Nat) (line_songs : List String) : List String :=
  if h : line_songs.length < total then
    let available := EARLYR.filter
      (fun s => !(used.contains s) && !(line_songs.contains s))
    if havail : available ≠ [] then
      c_pad_line total EARLYR used pick
        (line_songs ++ [choiceIdx available (pick line_songs.length)])
    else
      c_pad_line total EARLYR used pick
        (line_songs ++ [choiceIdx EARLYR (pick line_songs.length)])
  else line_songs
termination_by total - line_songs.length
decreasing_by
  all_goals simp [List.length_append]; omega

/-- The line songs before the shuffle (app.py lines 428-445): `[AT_R2]`
extended by a sample of `EARLY2` minus the used songs, or by the pad
loop when `EARLY2` is too small. -/
def cLineSongs0 (songs : List String) (card_size r2 R : Nat)
    (free_space : Bool) (rnd : CRandom) : List String :=
  let AT_R2 := cAT_R2 songs r2
  let EARLY2 := songs.take (r2 - 1)
  let total := (cLineSquares card_size free_space).length
  let available_early2 := EARLY2.filter (fun s => !([AT_R2].contains s))
  if total - 1 ≤ available_early2.length then AT_R2 :: rnd.lineSample
  else c_pad_line total (songs.take R) [AT_R2] rnd.linePadPick
    (AT_R2 :: available_early2)

/-- The grid after placing the shuffled line songs on the two center
lines (app.py lines 447-450). -/
def cGrid2 (songs : List String) (card_size r2 R : Nat) (free_space : Bool)
    (rnd : CRandom) : Grid :=
  placeList (bG1 card_size free_space)
    ((cLineSquares card_size free_space).zip
      (rnd.shuffleLine (cLineSongs0 songs card_size r2 R free_space rnd)))

/-- `blocker = random.choice(LATE)` (app.py line 453). -/
def cBlocker (songs : List String) (R M : Nat) (rnd : CRandom) : String :=
  choiceIdx (bLATE songs R M) rnd.blockerPick

/-- The empty squares off both center lines (app.py lines 456-457). -/
def cOffLines (songs : List String) (card_size r2 R : Nat)
    (free_space : Bool) (rnd : CRandom) : List (Nat × Nat) :=
  (allSquares card_size).filter
    (fun p => p.1 != card_size / 2 && p.2 != card_size / 2 &&
      (getCellO (cGrid2 songs card_size r2 R free_space rnd) p.1 p.2).isNone)

/-- The grid after placing the blocker (app.py lines 458-460). -/
def cGrid3 (songs : List String) (card_size r2 R M : Nat)
    (free_space : Bool) (rnd : CRandom) : Grid :=
  if cOffLines songs card_size r2 R free_space rnd ≠ [] then
    let pos := (cOffLines songs card_size r2 R free_space rnd).getD
      (rnd.posPick % (cOffLines songs card_size r2 R free_space rnd).length)
      (0, 0)
    setCell (cGrid2 songs card_size r2 R free_space rnd) pos.1 pos.2
      (some (cBlocker songs R M rnd))
  else cGrid2 songs card_size r2 R free_space rnd

/-- One row of the delay loop (app.py lines 464-472): skip the center
row, otherwise place a random `DELAY` song on a random empty column of
row `i`, recording it as used. -/
def cDelayStep (songs : List String) (card_size r2 : Nat) (R : Nat)
    (rnd : CRandom) (st : Grid × List String) (i : Nat) :
    Grid × List String :=
  if i = card_size / 2 then st
  else
    let available_cols := (List.range card_size).filter
      (fun j => (getCellO st.1 i j).isNone)
    if available_cols ≠ [] then
      let delay_song := choiceIdx (cDELAY songs r2 R) (rnd.delayPick i)
      let j := available_cols.getD
        (rnd.colPick i % available_cols.length) 0
      (setCell st.1 i j (some delay_song), delay_song :: st.2)
    else st

/-- The grid and used-song list after the delay loop (app.py lines
462-472); the loop only runs when `DELAY` is nonempty. -/
def cAfterDelay (songs : List String) (card_size r2 R M : Nat)
    (free_space : Bool) (rnd : CRandom) : Grid × List String :=
  let used := cBlocker songs R M rnd ::
    rnd.shuffleLine (cLineSongs0 songs card_size r2 R free_space rnd)
  if cDELAY songs r2 R ≠ [] then
    (List.range card_size).foldl (cDelayStep songs card_size r2 R rnd)
      (cGrid3 songs card_size r2 R M free_space rnd, used)
  else (cGrid3 songs card_size r2 R M free_space rnd, used)

/-- The grid after the final fill from `EARLYR` (app.py lines 474-487):
the shuffled unused songs of `EARLYR` by position, falling back to
`random.choice(EARLYR)` when they run out. -/
def cGrid4 (songs : List String) (card_size r2 R M : Nat)
    (free_space : Bool) (rnd : CRandom) : Grid :=
  let st := cAfterDelay songs card_size r2 R M free_space rnd
  let empty_squares := (allSquares card_size).filter
    (fun p => (getCellO st.1 p.1 p.2).isNone)
  let available_songs := rnd.shuffleFill
    ((songs.take R).filter (fun s => !(st.2.contains s)))
  placeList st.1 (empty_squares.enum.map (fun p =>
    (p.2, if p.1 < available_songs.length then available_songs.getD p.1 ""
      else choiceIdx (songs.take R) (rnd.fillPick p.1))))

/-- Embedding of `create_card_C_two_lines(songs, card_size, r2, R, M,
free_space)` (app.py lines 380-487): raise when `LATE` is empty,
otherwise build the grid and return it. -/
def create_card_C_two_lines (songs : List String) (card_size r2 R M : Nat)
    (free_space : Bool) (rnd : CRandom) : Except String Card :=
  if bLATE songs R M = [] then
    .error ("Need blocker songs: R=" ++ toString R ++ " must be < M=" ++
      toString M)
  else
    .ok ((cGrid4 songs card_size r2 R M free_space rnd).map
      (fun row => row.map (fun c => c.getD "")))

/-- C6: for a playlist of length `M`, `create_card_B_one_line` and
`create_card_C_two_lines` fail with an error if and only if
`LATE = S[R..M-1]` is empty, which happens exactly when `M ≤ R`; when
`R < M` both return a card. -/
theorem blocker_error_iff_late_empty (songs : List String)
    (card_size r1 r2 R M : Nat) (free_space : Bool)
    (rndB : BRandom) (rndC : CRandom) (hM : M = songs.length) :
    (bLATE songs R M = [] ↔ M ≤ R) ∧
    (∀ e, create_card_B_one_line songs card_size r1 R M free_space rndB =
        Except.error e ↔
      (bLATE songs R M = [] ∧
        e = "Need blocker songs: R=" ++ toString R ++ " must be < M=" ++
          toString M)) ∧
    (∀ e, create_card_C_two_lines songs card_size r2 R M free_space rndC =
        Except.error e ↔
      (bLATE songs R M = [] ∧
        e = "Need blocker songs: R=" ++ toString R ++ " must be < M=" ++
          toString M)) ∧
    (R < M →
      (∃ card, create_card_B_one_line songs card_size r1 R M free_space
        rndB = Except.ok card) ∧
      (∃ card, create_card_C_two_lines songs card_size r2 R M free_space
        rndC = Except.ok card)) := by
  subst hM
  have hiff : bLATE songs R songs.length = [] ↔ songs.length ≤ R := by
    rw [bLATE, List.take_length]
    split
    · exact List.drop_eq_nil_iff
    · next h =>
      simp
      omega
  refine ⟨hiff, ?_, ?_, ?_⟩
  · intro e
    rw [create_card_B_one_line]
    split
    · next hg =>
      constructor
      · intro h
        exact ⟨hg, (Except.error.inj h).symm⟩
      · intro h
        rw [h.2]
    · next hg =>
      constructor
      · intro h
        exact Except.noConfusion h
      · intro h
        exact absurd h.1 hg
  · intro e
    rw [create_card_C_two_lines]
    split
    · next hg =>
      constructor
      · intro h
        exact ⟨hg, (Except.error.inj h).symm⟩
      · intro h
        rw [h.2]
    · next hg =>
      constructor
      · intro h
        exact Except.noConfusion h
      · intro h
        exact absurd h.1 hg
  · intro hR
    have hne : bLATE songs R songs.length ≠ [] := by
      intro h
      have := hiff.mp h
      omega
    constructor
    · rw [create_card_B_one_line, if_neg hne]
      exact ⟨_, rfl⟩
    · rw [create_card_C_two_lines, if_neg hne]
      exact ⟨_, rfl⟩

/-- Witness for the blocker-error theorem: a 3-song playlist with
`R = 2 < M = 3`. -/
theorem blocker_error_iff_late_empty_witness :
    (bLATE ["a", "b", "c"] 2 3 = [] ↔ 3 ≤ 2) ∧
    (∀ e, create_card_B_one_line ["a", "b", "c"] 3 1 2 3 true
        ⟨[], fun _ => 0, fun l => l, 0, 0, fun l => l, fun _ => 0⟩ =
        Except.error e ↔
      (bLATE ["a", "b", "c"] 2 3 = [] ∧
        e = "Need blocker songs: R=" ++ toString 2 ++ " must be < M=" ++
          toString 3)) ∧
    (∀ e, create_card_C_two_lines ["a", "b", "c"] 3 2 2 3 true
        ⟨[], fun _ => 0, fun l => l, 0, 0, fun _ => 0, fun _ => 0,
          fun l => l, fun _ => 0⟩ =
        Except.error e ↔
      (bLATE ["a", "b", "c"] 2 3 = [] ∧
        e = "Need blocker songs: R=" ++ toString 2 ++ " must be < M=" ++
          toString 3)) ∧
    (2 < 3 →
      (∃ card, create_card_B_one_line ["a", "b", "c"] 3 1 2 3 true
        ⟨[], fun _ => 0, fun l => l, 0, 0, fun l => l, fun _ => 0⟩ =
        Except.ok card) ∧
      (∃ card, create_card_C_two_lines ["a", "b", "c"] 3 2 2 3 true
        ⟨[], fun _ => 0, fun l => l, 0, 0, fun _ => 0, fun _ => 0,
          fun l => l, fun _ => 0⟩ = Except.ok card)) :=
  blocker_error_iff_late_empty ["a", "b", "c"] 3 1 2 2 3 true
    ⟨[], fun _ => 0, fun l => l, 0, 0, fun l => l, fun _ => 0⟩
    ⟨[], fun _ => 0, fun l => l, 0, 0, fun _ => 0, fun _ => 0,
      fun l => l, fun _ => 0⟩ rfl

/-! ### `create_bingo_card` and its in-place padding (app.py lines 51-82)

The Python function mutates its caller's `songs` list: while it is
shorter than `num_songs_needed` it runs
`songs.extend(songs[:num_songs_needed - len(songs)])`.  The mutation is
modeled by returning the final songs list alongside the card.  On an
empty list the Python loop never terminates; the embedding guards the
recursion on nonemptiness and the theorems assume a nonempty list. -/

/-- `num_songs_needed = N*N - 1 if free_space and N % 2 == 1 else N*N`
(app.py line 55). -/
def num_songs_needed (card_size : Nat) (free_space : Bool) : Nat :=
  if free_space = true ∧ card_size % 2 = 1 then card_size * card_size - 1
  else card_size * card_size

/-- The padding loop of `create_bingo_card` (app.py lines 60-61):
while the list is short, extend it with its own prefix of length
`needed - len(songs)`. -/
def pad_songs (needed : Nat) (songs : List String) : List String :=
  if h : songs.length < needed then
    if hne : songs ≠ [] then
      pad_songs needed (songs ++ songs.take (needed - songs.length))
    else songs
  else songs
termination_by needed - songs.length
decreasing_by
  have hpos : 0 < songs.length := List.length_pos.mpr hne
  simp [List.length_append]
  omega

/-- Embedding of `create_bingo_card(songs, card_size, free_space)`
(app.py lines 51-82): pad the songs list in place when it is short,
sample `num_songs_needed` songs (the `sample` oracle, applied to the
padded list), and lay them out row by row with the FREE center on odd
sizes.  Returns the card together with the final songs list. -/
def create_bingo_card (songs : List String) (card_size : Nat)
    (free_space : Bool) (sample : List String → List String) :
    Card × List String :=
  let needed := num_songs_needed card_size free_space
  let songs2 := if songs.length < needed then pad_songs needed songs
    else songs
  let selected := sample songs2
  let center := card_size / 2
  ((List.range card_size).map (fun i =>
    (List.range card_size).map (fun j =>
      if free_space = true ∧ card_size % 2 = 1 ∧ i = center ∧ j = center
      then "FREE SPACE"
      else selected.getD (i * card_size + j -
        (if free_space = true ∧ card_size % 2 = 1 ∧
            (center < i ∨ (i = center ∧ center < j)) then 1 else 0)) "")),
   songs2)

/-- The original list is a prefix of the padded list. -/
theorem pad_songs_extends (needed : Nat) (songs : List String) :
    songs <+: pad_songs needed songs := by
  rw [pad_songs]
  split
  · split
    · exact List.IsPrefix.trans (List.prefix_append _ _)
        (pad_songs_extends needed _)
    · exact List.prefix_refl _
  · exact List.prefix_refl _
termination_by needed - songs.length
decreasing_by
  next hlt hne =>
    have hpos : 0 < songs.length := List.length_pos.mpr hne
    simp [List.length_append]
    omega

/-- Every entry of the padded list already occurs in the original
list: the padding only duplicates existing entries. -/
theorem pad_songs_subset (needed : Nat) (songs : List String) :
    ∀ s ∈ pad_songs needed songs, s ∈ songs := by
  intro s hs
  rw [pad_songs] at hs
  split at hs
  · split at hs
    · have h2 := pad_songs_subset needed _ s hs
      rcases List.mem_append.mp h2 with h3 | h3
      · exact h3
      · exact List.take_subset _ _ h3
    · exact hs
  · exact hs
termination_by needed - songs.length
decreasing_by
  next hlt hne =>
    have hpos : 0 < songs.length := List.length_pos.mpr hne
    simp [List.length_append]
    omega

/-- Padding a nonempty short list reaches exactly the needed length. -/
theorem pad_songs_length (needed : Nat) (songs : List String)
    (hne : songs ≠ []) (hlt : songs.length < needed) :
    (pad_songs needed songs).length = needed := by
  have hpos : 0 < songs.length := List.length_pos.mpr hne
  rw [pad_songs, dif_pos hlt, dif_pos hne]
  by_cases h2 : (songs ++ songs.take (needed - songs.length)).length < needed
  · exact pad_songs_length needed _
      (by simp [List.append_ne_nil_of_left_ne_nil, hne]) h2
  · rw [pad_songs, dif_neg h2]
    simp only [List.length_append, List.length_take] at h2 ⊢
    omega
termination_by needed - songs.length
decreasing_by
  simp [List.length_append]
  omega

/-- C9: `create_bingo_card` mutates its caller's playlist.  When the
songs list holds fewer than `num_songs_needed` entries it is extended
to exactly that length, keeping the original as a prefix and adding
only duplicated entries (so the final list differs from the original);
when the playlist is large enough it is left unchanged. -/
theorem create_bingo_card_mutates_songs (songs : List String)
    (card_size : Nat) (free_space : Bool)
    (sample : List String → List String) (hne : songs ≠ []) :
    (songs.length < num_songs_needed card_size free_space →
      (create_bingo_card songs card_size free_space sample).2.length =
        num_songs_needed card_size free_space ∧
      songs <+: (create_bingo_card songs card_size free_space sample).2 ∧
      (∀ s ∈ (create_bingo_card songs card_size free_space sample).2,
        s ∈ songs) ∧
      (create_bingo_card songs card_size free_space sample).2 ≠ songs) ∧
    (num_songs_needed card_size free_space ≤ songs.length →
      (create_bingo_card songs card_size free_space sample).2 = songs) := by
  have hsnd : (create_bingo_card songs card_size free_space sample).2 =
      if songs.length < num_songs_needed card_size free_space then
        pad_songs (num_songs_needed card_size free_space) songs
      else songs := rfl
  constructor
  · intro hlt
    rw [hsnd, if_pos hlt]
    refine ⟨pad_songs_length _ _ hne hlt, pad_songs_extends _ _,
      pad_songs_subset _ _, ?_⟩
    intro heq
    have := pad_songs_length _ _ hne hlt
    rw [heq] at this
    omega
  · intro hge
    rw [hsnd, if_neg (by omega)]

/-- Witness for the mutation theorem: a 3-song playlist and a 3×3 free-
space card (8 songs needed). -/
theorem create_bingo_card_mutates_songs_witness :
    ((["a", "b", "c"] : List String).length < num_songs_needed 3 true →
      (create_bingo_card ["a", "b", "c"] 3 true (fun l => l)).2.length =
        num_songs_needed 3 true ∧
      ["a", "b", "c"] <+:
        (create_bingo_card ["a", "b", "c"] 3 true (fun l => l)).2 ∧
      (∀ s ∈ (create_bingo_card ["a", "b", "c"] 3 true (fun l => l)).2,
        s ∈ (["a", "b", "c"] : List String)) ∧
      (create_bingo_card ["a", "b", "c"] 3 true (fun l => l)).2 ≠
        ["a", "b", "c"]) ∧
    (num_songs_needed 3 true ≤ (["a", "b", "c"] : List String).length →
      (create_bingo_card ["a", "b", "c"] 3 true (fun l => l)).2 =
        ["a", "b", "c"]) :=
  create_bingo_card_mutates_songs ["a", "b", "c"] 3 true (fun l => l)
    (by decide)

end MusicBingo
